import Mathlib

/-!
Shallow embedding of the Geburtstagsliste pipeline from `src/app.py`:
`prepare_dataframe` (the normalizer) and `build_geburtstagsliste_excel`
(the report builder).  A pandas DataFrame is modelled as a list of column
header names plus rows of cell values; pandas/xlsxwriter library calls are
modelled by their documented semantics.
-/

set_option maxRecDepth 10000

/-- A pandas cell value: missing (`NaN`/`NaT`/`None`), a string, an
integer, or a calendar date (a pandas `Timestamp`, kept as
year/month/day — the pipeline never uses the time-of-day part). -/
inductive Value where
  | null
  | str (s : String)
  | int (n : Int)
  | date (y m d : Nat)
deriving DecidableEq, Repr

/-- A pandas DataFrame: column header names plus rows of cells.
Well-formed frames have every row of the same length as the header. -/
structure DF where
  cols : List String
  rows : List (List Value)
deriving DecidableEq, Repr

/-- Well-formedness: each row has exactly one cell per column. -/
def DF.WF (df : DF) : Prop := ∀ r ∈ df.rows, r.length = df.cols.length

/-- Index of the first column with the given name (pandas label lookup). -/
def findCol (c : String) : List String → Option Nat
  | [] => none
  | c' :: cs => if c' = c then some 0 else (findCol c cs).map (· + 1)

/-- Whether a column with this label exists (`c in df.columns`). -/
def DF.hasCol (df : DF) (c : String) : Bool := (findCol c df.cols).isSome

/-- Positional cell access; out-of-range reads give `null` (well-formed
frames never read out of range). -/
def cellAt (r : List Value) (i : Nat) : Value := r.getD i .null

/-- The cell of row `r` under the first column named `c` (`null` when the
column is absent). -/
def cellN (cols : List String) (r : List Value) (c : String) : Value :=
  match cols, r with
  | [], _ => .null
  | _, [] => .null
  | c' :: cs, v :: vs => if c' = c then v else cellN cs vs c

theorem cellN_eq (cols : List String) (r : List Value) (c : String) :
    cellN cols r c = match findCol c cols with
      | some i => cellAt r i
      | none => .null := by
  induction cols generalizing r with
  | nil => simp [cellN, findCol]
  | cons c' cs ih =>
    cases r with
    | nil =>
      cases h : findCol c (c' :: cs) <;> simp [cellN, cellAt, h]
    | cons v vs =>
      by_cases hc : c' = c
      · simp [cellN, findCol, hc, cellAt]
      · simp only [cellN, findCol, if_neg hc, ih]
        cases h : findCol c cs <;> simp [h, cellAt]

theorem findCol_lt_length {c : String} {cols : List String} {i : Nat}
    (h : findCol c cols = some i) : i < cols.length := by
  induction cols generalizing i with
  | nil => simp [findCol] at h
  | cons c' cs ih =>
    by_cases hc : c' = c
    · simp [findCol, hc] at h
      simp [List.length_cons]
      omega
    · simp only [findCol, if_neg hc, Option.map_eq_some'] at h
      obtain ⟨j, hj, rfl⟩ := h
      have := ih hj
      simp [List.length_cons]
      omega

theorem findCol_get {c : String} {cols : List String} {i : Nat}
    (h : findCol c cols = some i) : cols.getD i "" = c := by
  induction cols generalizing i with
  | nil => simp [findCol] at h
  | cons c' cs ih =>
    by_cases hc : c' = c
    · simp [findCol, hc] at h
      subst h
      simpa [List.getD]
    · simp only [findCol, if_neg hc, Option.map_eq_some'] at h
      obtain ⟨j, hj, rfl⟩ := h
      simpa [List.getD] using ih hj

theorem findCol_isSome_iff {c : String} {cols : List String} :
    (findCol c cols).isSome = true ↔ c ∈ cols := by
  induction cols with
  | nil => simp [findCol]
  | cons c' cs ih =>
    by_cases hc : c' = c
    · simp [findCol, hc]
    · simp only [findCol, if_neg hc]
      cases h : findCol c cs with
      | none =>
        rw [h] at ih
        simp at ih
        simp [Ne.symm hc, ih]
      | some i =>
        rw [h] at ih
        simp at ih
        simp [ih]

theorem findCol_none_iff {c : String} {cols : List String} :
    findCol c cols = none ↔ c ∉ cols := by
  rw [← findCol_isSome_iff]
  cases h : findCol c cols <;> simp [h]

/-- Overwrite the first column named `c` cellwise (no-op when absent). -/
def DF.mapCol (df : DF) (c : String) (f : Value → Value) : DF :=
  match findCol c df.cols with
  | some i => ⟨df.cols, df.rows.map (fun r => r.set i (f (cellAt r i)))⟩
  | none => df

/-- One row of a column assignment: overwrite in place when the column
exists (at index `i`), else append the new cell at the right end. -/
def setRow (o : Option Nat) (g : List Value → Value) (r : List Value) : List Value :=
  match o with
  | some i => r.set i (g r)
  | none => r ++ [g r]

/-- pandas `df[c] = <series computed rowwise>`: overwrite the first column
named `c`, or append a new column at the right end when absent. -/
def DF.setColFrom (df : DF) (c : String) (g : List Value → Value) : DF :=
  ⟨if (findCol c df.cols).isSome then df.cols else df.cols ++ [c],
   df.rows.map (setRow (findCol c df.cols) g)⟩

/-- One row of `df.drop(columns=names)`: delete the cells sitting under a
dropped column. -/
def dropRow (cols names : List String) (r : List Value) : List Value :=
  match cols, r with
  | [], _ => []
  | _, [] => []
  | c :: cs, v :: vs =>
    if names.contains c then dropRow cs names vs else v :: dropRow cs names vs

/-- `df.drop(columns=names, errors="ignore")`. -/
def DF.dropC (df : DF) (names : List String) : DF :=
  ⟨df.cols.filter (fun c => !(names.contains c)), df.rows.map (dropRow df.cols names)⟩

/-- Insert into a sorted list before the first element `y` with `le x y`,
so that equal keys keep their original relative order (stability). -/
def insLe {α : Type _} (le : α → α → Bool) (x : α) : List α → List α
  | [] => [x]
  | y :: ys => if le x y then x :: y :: ys else y :: insLe le x ys

/-- ONE output permitted by `DataFrame.sort_values`: an insertion sort
by `le`.  The code calls `sort_values` with the default
`kind="quicksort"`, which pandas does not document as stable, so the
program fixes no order among tied keys; `SortedBy` below is the full
documented contract (some key-nondecreasing permutation) and this
executable sort realises one of its outcomes. -/
def sortValues {α : Type _} (le : α → α → Bool) : List α → List α
  | [] => []
  | x :: xs => insLe le x (sortValues le xs)

/-- The documented contract of `DataFrame.sort_values` (any `kind`, the
`na_position="last"` default folded into `le`): the output is SOME
permutation of the input that is nondecreasing in the key.  The default
`kind="quicksort"` promises nothing more — in particular it is not
documented as stable — so theorems about the program's row order
quantify over every output this relation permits. -/
def SortedBy {α : Type _} (le : α → α → Bool) (l out : List α) : Prop :=
  out.Perm l ∧ out.Pairwise (fun a b => le a b = true)

theorem mem_insLe {α : Type _} {le : α → α → Bool} {x a : α} {l : List α} :
    a ∈ insLe le x l ↔ a = x ∨ a ∈ l := by
  induction l with
  | nil => simp [insLe]
  | cons y ys ih =>
    simp only [insLe]
    split
    · simp
    · simp only [List.mem_cons, ih]
      tauto

theorem insLe_pairwise {α : Type _} {le : α → α → Bool}
    (htot : ∀ a b, le a b = true ∨ le b a = true)
    (htrans : ∀ a b c, le a b = true → le b c = true → le a c = true)
    {x : α} {l : List α}
    (hl : l.Pairwise (fun a b => le a b = true)) :
    (insLe le x l).Pairwise (fun a b => le a b = true) := by
  induction l with
  | nil => simp [insLe]
  | cons y ys ih =>
    rcases hl with _ | ⟨hy, hys⟩
    simp only [insLe]
    by_cases hxy : le x y = true
    · rw [if_pos hxy]
      refine List.Pairwise.cons ?_ (List.Pairwise.cons hy hys)
      intro b hb
      rcases List.mem_cons.1 hb with rfl | hb
      · exact hxy
      · exact htrans x y b hxy (hy b hb)
    · rw [if_neg hxy]
      refine List.Pairwise.cons ?_ (ih hys)
      intro b hb
      rcases mem_insLe.1 hb with rfl | hb
      · rcases htot b y with h | h
        · exact absurd h hxy
        · exact h
      · exact hy b hb

theorem sortValues_pairwise {α : Type _} {le : α → α → Bool}
    (htot : ∀ a b, le a b = true ∨ le b a = true)
    (htrans : ∀ a b c, le a b = true → le b c = true → le a c = true)
    (l : List α) :
    (sortValues le l).Pairwise (fun a b => le a b = true) := by
  induction l with
  | nil => simp [sortValues]
  | cons x xs ih => exact insLe_pairwise htot htrans ih

theorem sortValues_of_pairwise {α : Type _} {le : α → α → Bool} {l : List α}
    (hl : l.Pairwise (fun a b => le a b = true)) : sortValues le l = l := by
  induction l with
  | nil => rfl
  | cons x xs ih =>
    rcases hl with _ | ⟨hx, hxs⟩
    rw [sortValues, ih hxs]
    cases xs with
    | nil => rfl
    | cons y ys => simp [insLe, hx y (by simp)]

theorem insLe_perm {α : Type _} (le : α → α → Bool) (x : α) (l : List α) :
    (insLe le x l).Perm (x :: l) := by
  induction l with
  | nil => rfl
  | cons y ys ih =>
    simp only [insLe]
    split
    · rfl
    · exact (List.Perm.cons y ih).trans (List.Perm.swap x y ys)

theorem sortValues_perm {α : Type _} (le : α → α → Bool) (l : List α) :
    (sortValues le l).Perm l := by
  induction l with
  | nil => rfl
  | cons x xs ih => exact (insLe_perm le x (sortValues le xs)).trans (ih.cons x)

/-- Stability of `sortValues`: filtering by any key-class commutes with
the sort, provided the filter respects the order (`hpc`). -/
theorem filter_insLe {α : Type _} {le : α → α → Bool} {p : α → Bool}
    (hpc : ∀ a b, p a = true → le a b = false → p b = false)
    (x : α) (l : List α) :
    (insLe le x l).filter p =
      (if p x then x :: l.filter p else l.filter p) := by
  induction l with
  | nil => simp [insLe, List.filter_cons]
  | cons y ys ih =>
    simp only [insLe]
    by_cases hxy : le x y = true
    · rw [if_pos hxy, List.filter_cons]
    · have hxy' : le x y = false := by simpa using hxy
      rw [if_neg hxy, List.filter_cons, ih]
      by_cases hpx : p x = true
      · have hpy : p y = false := hpc x y hpx hxy'
        simp [hpx, hpy, List.filter_cons]
      · have hpx' : p x = false := by simpa using hpx
        simp [hpx', List.filter_cons]

theorem filter_sortValues {α : Type _} {le : α → α → Bool} {p : α → Bool}
    (hpc : ∀ a b, p a = true → le a b = false → p b = false) (l : List α) :
    (sortValues le l).filter p = l.filter p := by
  induction l with
  | nil => rfl
  | cons x xs ih =>
    rw [sortValues, filter_insLe hpc, ih, List.filter_cons]

/-- Value of a decimal digit character (`none` for a non-digit). -/
def digitVal (c : Char) : Option Nat :=
  if '0' ≤ c ∧ c ≤ '9' then some (c.toNat - '0'.toNat) else none

/-- Big-endian decimal reading with an accumulator. -/
def digitsAcc (acc : Nat) : List Char → Option Nat
  | [] => some acc
  | c :: cs =>
    match digitVal c with
    | some d => digitsAcc (acc * 10 + d) cs
    | none => none

/-- Read a non-empty all-digit character list as a number. -/
def digitsToNat (cs : List Char) : Option Nat :=
  match cs with
  | [] => none
  | _ => digitsAcc 0 cs

/-- Date-component separators accepted by the parser model. -/
def isSep (c : Char) : Bool := c = '.' || c = '/' || c = '-'

/-- Split a character list at separator characters. -/
def splitSepAux : List Char → List Char → List (List Char)
  | [], cur => [cur.reverse]
  | c :: cs, cur =>
    if isSep c then cur.reverse :: splitSepAux cs [] else splitSepAux cs (c :: cur)

def leapYear (y : Nat) : Bool :=
  (decide (y % 4 = 0) && decide (y % 100 ≠ 0)) || decide (y % 400 = 0)

def daysInMonth (y m : Nat) : Nat :=
  if m = 2 then (if leapYear y then 29 else 28)
  else if m = 4 ∨ m = 6 ∨ m = 9 ∨ m = 11 then 30
  else 31

def validDMY (d m y : Nat) : Bool :=
  decide (1 ≤ m) && decide (m ≤ 12) && decide (1 ≤ d) && decide (d ≤ daysInMonth y m)

/-- Model of parsing one birth-date string under
`pd.to_datetime(..., dayfirst=True)`: numeric `D<sep>M<sep>YYYY`
components, day read before month; like dateutil, when the day-first
reading is not a valid calendar date the month-first reading is tried;
anything else fails.  Returns `(year, month, day)`. -/
def parseDateStr (s : String) : Option (Nat × Nat × Nat) :=
  match splitSepAux s.data [] with
  | [p1, p2, p3] =>
    match digitsToNat p1, digitsToNat p2, digitsToNat p3 with
    | some a, some b, some y =>
      if p1.length ≤ 2 ∧ p2.length ≤ 2 ∧ p3.length = 4 then
        if validDMY a b y then some (y, b, a)
        else if validDMY b a y then some (y, a, b)
        else none
      else none
    | _, _, _ => none
  | _ => none

/-- `pd.to_datetime(cell, errors="coerce", dayfirst=True)` on one cell
(app.py lines 18–21): parsed dates pass through unchanged, strings are
parsed day-first, and anything unparseable coerces to `NaT` (null)
instead of raising. -/
def parseDate (v : Value) : Value :=
  match v with
  | .date y m d => .date y m d
  | .str s =>
    match parseDateStr s with
    | some (y, m, d) => .date y m d
    | none => .null
  | _ => .null

theorem parseDate_idem (v : Value) : parseDate (parseDate v) = parseDate v := by
  cases v with
  | date y m d => rfl
  | str s =>
    simp only [parseDate]
    cases parseDateStr s with
    | none => rfl
    | some t => rfl
  | null => rfl
  | int n => rfl

/-- The fixed rename map of `prepare_dataframe` (app.py lines 35–46),
applied to one column label. -/
def renameFn (c : String) : String :=
  if c = "Strasse (Korr.)" then "Strasse"
  else if c = "PLZ (Korr.)" then "PLZ"
  else if c = "Ort (Korr.)" then "Ort"
  else if c = "Korresp.sprache" then "Korrespondenzsprache"
  else if c = "Korresp. Sprache" then "Korrespondenzsprache"
  else if c = "Korrespondenz Sprache" then "Korrespondenzsprache"
  else c

/-- `df.rename(columns=existing_rename)`: every occurrence of a source
label is replaced; labels outside the map are untouched. -/
def DF.renameC (df : DF) : DF := ⟨df.cols.map renameFn, df.rows⟩

theorem renameFn_idem (c : String) : renameFn (renameFn c) = renameFn c := by
  by_cases h1 : c = "Strasse (Korr.)"
  · subst h1; decide
  by_cases h2 : c = "PLZ (Korr.)"
  · subst h2; decide
  by_cases h3 : c = "Ort (Korr.)"
  · subst h3; decide
  by_cases h4 : c = "Korresp.sprache"
  · subst h4; decide
  by_cases h5 : c = "Korresp. Sprache"
  · subst h5; decide
  by_cases h6 : c = "Korrespondenz Sprache"
  · subst h6; decide
  have hc : renameFn c = c := by
    unfold renameFn
    rw [if_neg h1, if_neg h2, if_neg h3, if_neg h4, if_neg h5, if_neg h6]
  rw [hc, hc]

/-- The derived-age column label `f"Alter {target_year}"`. -/
def alterName (Y : Int) : String := "Alter " ++ toString Y

/-- Lexicographic order on `(month, day)`. -/
def pairLe (a b : Nat × Nat) : Bool :=
  decide (a.1 < b.1) || (decide (a.1 = b.1) && decide (a.2 ≤ b.2))

/-- The `strftime("%m-%d")` sort key of a birth-date cell: `NaT` (and any
non-date cell) keys to missing. -/
def gebKey (v : Value) : Option (Nat × Nat) :=
  match v with
  | .date _ m d => some (m, d)
  | _ => none

/-- Ordering used by `sort_values("_geburtstag_sort")`: the key column
holds zero-padded `"mm-dd"` strings whose lexicographic string order is
exactly the lexicographic `(month, day)` order, and pandas places the
`NaN` keys of date-less rows last (`na_position="last"`). -/
def optPairLe (a b : Option (Nat × Nat)) : Bool :=
  match a, b with
  | some x, some y => pairLe x y
  | some _, none => true
  | none, some _ => false
  | none, none => true

theorem optPairLe_total (a b : Option (Nat × Nat)) :
    optPairLe a b = true ∨ optPairLe b a = true := by
  cases a <;> cases b <;> simp [optPairLe, pairLe] <;> omega

theorem optPairLe_trans (a b c : Option (Nat × Nat)) :
    optPairLe a b = true → optPairLe b c = true → optPairLe a c = true := by
  cases a <;> cases b <;> cases c <;> simp [optPairLe, pairLe] <;> omega

/-- Row order of the birthday sort, keyed on the `Geburtsdatum` cell. -/
def gebLe (gi : Nat) (r1 r2 : List Value) : Bool :=
  optPairLe (gebKey (cellAt r1 gi)) (gebKey (cellAt r2 gi))

/-- app.py lines 23–26: materialize the `"_geburtstag_sort"` key column
(overwriting a pre-existing column of that name), `sort_values` by it,
`reset_index(drop=True)`, and drop the key column again.  The net effect
modelled here: sort the rows by the key of the `Geburtsdatum` cell, and
remove any column labelled `"_geburtstag_sort"`. -/
def sortGeb (df : DF) : DF :=
  match findCol "Geburtsdatum" df.cols with
  | some gi => DF.dropC ⟨df.cols, sortValues (gebLe gi) df.rows⟩ ["_geburtstag_sort"]
  | none => df

/-- `target_year - df["Geburtsdatum"].dt.year` on one cell: `NaN` when
the date is missing. -/
def ageOf (Y : Int) (v : Value) : Value :=
  match v with
  | .date y _ _ => .int (Y - (y : Int))
  | _ => .null

/-- app.py line 29: `df[f"Alter {target_year}"] = target_year -
df["Geburtsdatum"].dt.year`. -/
def setAlter (df : DF) (Y : Int) : DF :=
  match findCol "Geburtsdatum" df.cols with
  | some gi => df.setColFrom (alterName Y) (fun r => ageOf Y (cellAt r gi))
  | none => df

/-- app.py lines 18–21: parse the `Geburtsdatum` column if present. -/
def parseGeb (df : DF) : DF := df.mapCol "Geburtsdatum" parseDate

/-- `prepare_dataframe(df_raw, target_year)` (app.py lines 8–48): parse
and sort by the birth date and derive the age column (all only when a
`Geburtsdatum` column exists), then drop the obsolete columns and apply
the rename map. -/
def prepare (df : DF) (Y : Int) : DF :=
  let d1 := if (findCol "Geburtsdatum" df.cols).isSome
            then setAlter (sortGeb (parseGeb df)) Y
            else df
  DF.renameC (d1.dropC ["Kontakte", "Anredeart"])

theorem cellAt_set_self {r : List Value} {i : Nat} {v : Value} (h : i < r.length) :
    cellAt (r.set i v) i = v := by
  induction r generalizing i with
  | nil => simp at h
  | cons x xs ih =>
    cases i with
    | zero => rfl
    | succ j =>
      simp only [List.set_cons_succ, cellAt, List.getD, List.getElem?_cons_succ]
      exact ih (by simpa using h)

theorem cellAt_set_ne {r : List Value} {i j : Nat} {v : Value} (h : i ≠ j) :
    cellAt (r.set i v) j = cellAt r j := by
  induction r generalizing i j with
  | nil => simp [cellAt]
  | cons x xs ih =>
    cases i with
    | zero =>
      cases j with
      | zero => exact absurd rfl h
      | succ j' => rfl
    | succ i' =>
      cases j with
      | zero => rfl
      | succ j' =>
        simp only [List.set_cons_succ, cellAt, List.getD, List.getElem?_cons_succ]
        exact ih (by omega)

theorem set_cellAt_self (r : List Value) (i : Nat) : r.set i (cellAt r i) = r := by
  induction r generalizing i with
  | nil => rfl
  | cons x xs ih =>
    cases i with
    | zero => rfl
    | succ j =>
      simp only [cellAt, List.getD, List.getElem?_cons_succ, List.set_cons_succ]
      exact congrArg (x :: ·) (ih j)

theorem cellAt_append_left {r t : List Value} {i : Nat} (h : i < r.length) :
    cellAt (r ++ t) i = cellAt r i := by
  simp [cellAt, List.getD, List.getElem?_append_left h]

theorem map_id_of_mem {α : Type _} {l : List α} {f : α → α}
    (h : ∀ a ∈ l, f a = a) : l.map f = l := by
  induction l with
  | nil => rfl
  | cons x xs ih =>
    simp only [List.map_cons, h x (by simp)]
    exact congrArg (x :: ·) (ih fun a ha => h a (by simp [ha]))

/-- `cellN` looks through a column drop, for names that are not dropped. -/
theorem cellN_dropRow {cols names : List String} {r : List Value} {c : String}
    (hc : c ∉ names) :
    cellN (cols.filter (fun x => !(names.contains x))) (dropRow cols names r) c =
      cellN cols r c := by
  induction cols generalizing r with
  | nil => simp [dropRow, cellN]
  | cons c' cs ih =>
    cases r with
    | nil =>
      cases hh : List.filter (fun x => !(names.contains x)) (c' :: cs) <;>
        simp [dropRow, cellN]
    | cons v vs =>
      by_cases hmem : names.contains c' = true
      · have hne : c' ≠ c := by
          intro he
          exact hc (by simpa [he] using hmem)
        simp only [dropRow, if_pos hmem, List.filter_cons, hmem]
        simpa [cellN, hne] using ih (r := vs)
      · have hmem' : (names.contains c') = false := by simpa using hmem
        simp only [dropRow, hmem', Bool.false_eq_true, if_false, List.filter_cons,
          Bool.not_false, if_true]
        by_cases he : c' = c
        · simp [cellN, he]
        · simpa [cellN, he] using ih (r := vs)

theorem dropRow_length {cols names : List String} {r : List Value}
    (h : r.length = cols.length) :
    (dropRow cols names r).length =
      (cols.filter (fun x => !(names.contains x))).length := by
  induction cols generalizing r with
  | nil => cases r <;> simp_all [dropRow]
  | cons c' cs ih =>
    cases r with
    | nil => simp at h
    | cons v vs =>
      by_cases hmem : names.contains c' = true
      · simp only [dropRow, if_pos hmem, List.filter_cons, hmem, Bool.not_true]
        simpa using ih (by simpa using h)
      · have hmem' : (names.contains c') = false := by simpa using hmem
        simp only [dropRow, hmem', Bool.false_eq_true, if_false, List.filter_cons,
          Bool.not_false, if_true, List.length_cons]
        have := ih (r := vs) (by simpa using h)
        simp [this]

theorem dropRow_eq_self {cols names : List String} {r : List Value}
    (hnone : ∀ n ∈ cols, n ∉ names) (h : r.length = cols.length) :
    dropRow cols names r = r := by
  induction cols generalizing r with
  | nil => cases r <;> simp_all [dropRow]
  | cons c' cs ih =>
    cases r with
    | nil => simp at h
    | cons v vs =>
      have hmem : (names.contains c') = false := by
        have := hnone c' (by simp)
        simpa using this
      simp only [dropRow, hmem, if_neg, Bool.false_eq_true, not_false_iff]
      exact congrArg (v :: ·) (ih (fun n hn => hnone n (by simp [hn])) (by simpa using h))

theorem dropC_eq_self {df : DF} {names : List String}
    (hnone : ∀ n ∈ names, n ∉ df.cols) (hwf : df.WF) :
    df.dropC names = df := by
  have hcols : df.cols.filter (fun x => !(names.contains x)) = df.cols := by
    rw [List.filter_eq_self]
    intro a ha
    have : a ∉ names := fun hmem => hnone a hmem ha
    simpa using this
  have hrows : df.rows.map (dropRow df.cols names) = df.rows := by
    apply map_id_of_mem
    intro r hr
    exact dropRow_eq_self (fun n hn hmem => hnone n hmem hn) (hwf r hr)
  cases df
  simpa [DF.dropC] using And.intro hcols hrows

theorem WF_dropC {df : DF} (names : List String) (hwf : df.WF) :
    (df.dropC names).WF := by
  intro r hr
  simp only [DF.dropC, List.mem_map] at hr
  obtain ⟨r₀, hr₀, rfl⟩ := hr
  exact dropRow_length (hwf r₀ hr₀)

theorem WF_mapCol {df : DF} {c : String} {f : Value → Value} (hwf : df.WF) :
    (df.mapCol c f).WF := by
  unfold DF.mapCol
  cases h : findCol c df.cols with
  | none => exact hwf
  | some i =>
    intro r hr
    simp only [List.mem_map] at hr
    obtain ⟨r₀, hr₀, rfl⟩ := hr
    simpa using hwf r₀ hr₀

theorem WF_setColFrom {df : DF} {c : String} {g : List Value → Value} (hwf : df.WF) :
    (df.setColFrom c g).WF := by
  intro r hr
  simp only [DF.setColFrom, List.mem_map] at hr
  obtain ⟨r₀, hr₀, rfl⟩ := hr
  cases h : findCol c df.cols with
  | some i => simp [DF.setColFrom, setRow, h, hwf r₀ hr₀]
  | none => simp [DF.setColFrom, setRow, h, hwf r₀ hr₀]

theorem WF_renameC {df : DF} (hwf : df.WF) : df.renameC.WF := by
  intro r hr
  simpa [DF.renameC] using hwf r hr

theorem WF_sortRows {df : DF} {le : List Value → List Value → Bool} (hwf : df.WF) :
    (DF.mk df.cols (sortValues le df.rows)).WF := by
  intro r hr
  exact hwf r ((sortValues_perm le df.rows).mem_iff.1 hr)

theorem cellN_set_self {cols : List String} {r : List Value} {i : Nat} {v : Value}
    {c : String} (hi : findCol c cols = some i) (hlen : r.length = cols.length) :
    cellN cols (r.set i v) c = v := by
  rw [cellN_eq, hi]
  exact cellAt_set_self (by rw [hlen]; exact findCol_lt_length hi)

theorem cellN_set_other {cols : List String} {r : List Value} {i : Nat}
    {v : Value} {c n : String} (hi : findCol c cols = some i) (hne : n ≠ c) :
    cellN cols (r.set i v) n = cellN cols r n := by
  rw [cellN_eq, cellN_eq]
  cases hn : findCol n cols with
  | none => rfl
  | some j =>
    have h1 : cols.getD i "" = c := findCol_get hi
    have h2 : cols.getD j "" = n := findCol_get hn
    have hij : i ≠ j := fun he => hne (by rw [← h2, ← he, h1])
    exact cellAt_set_ne hij

theorem cellN_append {cols cols₂ : List String} {r r₂ : List Value} {n : String}
    (hlen : r.length = cols.length) :
    cellN (cols ++ cols₂) (r ++ r₂) n =
      if n ∈ cols then cellN cols r n else cellN cols₂ r₂ n := by
  induction cols generalizing r with
  | nil =>
    cases r with
    | nil => simp [cellN]
    | cons v vs => simp at hlen
  | cons c' cs ih =>
    cases r with
    | nil => simp at hlen
    | cons v vs =>
      by_cases he : c' = n
      · simp [cellN, he]
      · simp only [List.cons_append, cellN, if_neg he, List.append_eq]
        rw [ih (by simpa using hlen)]
        by_cases hm : n ∈ cs
        · simp [hm, Ne.symm he]
        · simp [hm, Ne.symm he]

theorem cellN_absent {cols : List String} {r : List Value} {n : String}
    (h : n ∉ cols) : cellN cols r n = .null := by
  rw [cellN_eq]
  rw [findCol_none_iff.2 h]

theorem cellN_setRow_self {df : DF} {c : String} {g : List Value → Value}
    {r : List Value} (hlen : r.length = df.cols.length) :
    cellN (df.setColFrom c g).cols (setRow (findCol c df.cols) g r) c = g r := by
  cases h : findCol c df.cols with
  | some i =>
    simp only [DF.setColFrom, h, Option.isSome_some, if_true, setRow]
    exact cellN_set_self h hlen
  | none =>
    simp only [DF.setColFrom, h, Option.isSome_none, Bool.false_eq_true, if_false, setRow]
    rw [cellN_append hlen]
    rw [if_neg (findCol_none_iff.1 h)]
    simp [cellN]

theorem cellN_setRow_other {df : DF} {c n : String} {g : List Value → Value}
    {r : List Value} (hlen : r.length = df.cols.length) (hne : n ≠ c) :
    cellN (df.setColFrom c g).cols (setRow (findCol c df.cols) g r) n =
      cellN df.cols r n := by
  cases h : findCol c df.cols with
  | some i =>
    simp only [DF.setColFrom, h, Option.isSome_some, if_true, setRow]
    exact cellN_set_other h hne
  | none =>
    simp only [DF.setColFrom, h, Option.isSome_none, Bool.false_eq_true, if_false, setRow]
    rw [cellN_append hlen]
    by_cases hm : n ∈ df.cols
    · rw [if_pos hm]
    · rw [if_neg hm, cellN_absent hm]
      simp [cellN, Ne.symm hne]

theorem cellN_renameC {cols : List String} {r : List Value} {n : String}
    (hfix : renameFn n = n) (hinj : ∀ c', renameFn c' = n → c' = n) :
    cellN (cols.map renameFn) r n = cellN cols r n := by
  induction cols generalizing r with
  | nil => simp [cellN]
  | cons c' cs ih =>
    cases r with
    | nil => simp [cellN]
    | cons v vs =>
      by_cases he : renameFn c' = n
      · have hcn : c' = n := hinj c' he
        subst hcn
        simp [cellN, he]
      · have hcn : c' ≠ n := fun hc => he (by rw [hc, hfix])
        simp only [List.map_cons, cellN, if_neg he, if_neg hcn]
        exact ih

theorem alterName_ne {Y : Int} {t : String} (h : t.data.take 2 ≠ ['A', 'l']) :
    alterName Y ≠ t := by
  intro he
  apply h
  rw [← he]
  show ("Alter " ++ toString Y).data.take 2 = _
  rw [String.data_append]
  rfl

theorem renameFn_eq_or (c : String) :
    renameFn c = c ∨
      renameFn c ∈ (["Strasse", "PLZ", "Ort", "Korrespondenzsprache"] : List String) := by
  unfold renameFn
  split
  · right; simp
  · split
    · right; simp
    · split
      · right; simp
      · split
        · right; simp
        · split
          · right; simp
          · split
            · right; simp
            · left; rfl

theorem renameFn_eq_name {c' n : String}
    (hn : n ∉ (["Strasse", "PLZ", "Ort", "Korrespondenzsprache"] : List String))
    (h : renameFn c' = n) : c' = n := by
  rcases renameFn_eq_or c' with h' | h'
  · exact h'.symm.trans h
  · exact absurd (h ▸ h') hn

theorem renameFn_eq_self {c : String}
    (h1 : c ≠ "Strasse (Korr.)") (h2 : c ≠ "PLZ (Korr.)") (h3 : c ≠ "Ort (Korr.)")
    (h4 : c ≠ "Korresp.sprache") (h5 : c ≠ "Korresp. Sprache")
    (h6 : c ≠ "Korrespondenz Sprache") : renameFn c = c := by
  unfold renameFn
  rw [if_neg h1, if_neg h2, if_neg h3, if_neg h4, if_neg h5, if_neg h6]

theorem findCol_mem {c : String} {cols : List String} (h : c ∈ cols) :
    ∃ i, findCol c cols = some i := by
  have hs := findCol_isSome_iff.2 h
  cases hh : findCol c cols with
  | none => rw [hh] at hs; simp at hs
  | some i => exact ⟨i, rfl⟩

theorem not_mem_dropC {df : DF} {names : List String} {n : String} (h : n ∈ names) :
    n ∉ (df.dropC names).cols := by
  intro hmem
  have := List.of_mem_filter hmem
  simp at this
  exact this h

theorem mem_dropC {df : DF} {names : List String} {n : String}
    (h1 : n ∈ df.cols) (h2 : n ∉ names) : n ∈ (df.dropC names).cols :=
  List.mem_filter_of_mem h1 (by simpa using h2)

theorem gebLe_total (gi : Nat) (r1 r2 : List Value) :
    gebLe gi r1 r2 = true ∨ gebLe gi r2 r1 = true :=
  optPairLe_total _ _

theorem gebLe_trans (gi : Nat) (a b c : List Value) :
    gebLe gi a b = true → gebLe gi b c = true → gebLe gi a c = true :=
  optPairLe_trans _ _ _

/-- Everything `prepare_dataframe` guarantees about its output when the
input has a `Geburtsdatum` column; re-running `prepare` on a table with
these properties is the identity. -/
structure PreparedG (df : DF) (Y : Int) : Prop where
  wf : df.WF
  geb : "Geburtsdatum" ∈ df.cols
  alter : alterName Y ∈ df.cols
  parsed : ∀ r ∈ df.rows,
    parseDate (cellN df.cols r "Geburtsdatum") = cellN df.cols r "Geburtsdatum"
  sorted : df.rows.Pairwise (fun r1 r2 =>
    optPairLe (gebKey (cellN df.cols r1 "Geburtsdatum"))
      (gebKey (cellN df.cols r2 "Geburtsdatum")) = true)
  age : ∀ r ∈ df.rows,
    cellN df.cols r (alterName Y) = ageOf Y (cellN df.cols r "Geburtsdatum")
  noK : "Kontakte" ∉ df.cols
  noA : "Anredeart" ∉ df.cols
  noTmp : "_geburtstag_sort" ∉ df.cols
  ren : df.cols.map renameFn = df.cols

theorem prepare_of_prepared {df : DF} {Y : Int} (h : PreparedG df Y) :
    prepare df Y = df := by
  obtain ⟨gi, hgi⟩ := findCol_mem h.geb
  have hcell : ∀ r, cellN df.cols r "Geburtsdatum" = cellAt r gi := by
    intro r
    rw [cellN_eq, hgi]
  have h1 : parseGeb df = df := by
    have hrows : df.rows.map (fun r => r.set gi (parseDate (cellAt r gi))) = df.rows := by
      apply map_id_of_mem
      intro r hr
      have := h.parsed r hr
      rw [hcell r] at this
      rw [this, set_cellAt_self]
    unfold parseGeb DF.mapCol
    rw [hgi]
    show DF.mk df.cols (df.rows.map (fun r => r.set gi (parseDate (cellAt r gi)))) = df
    rw [hrows]
  have h2 : sortGeb df = df := by
    have hs : sortValues (gebLe gi) df.rows = df.rows := by
      apply sortValues_of_pairwise
      refine h.sorted.imp ?_
      intro r1 r2 hr
      unfold gebLe
      rw [← hcell r1, ← hcell r2]
      exact hr
    unfold sortGeb
    rw [hgi]
    show (DF.mk df.cols (sortValues (gebLe gi) df.rows)).dropC ["_geburtstag_sort"] = df
    rw [hs]
    exact dropC_eq_self (by simpa using h.noTmp) h.wf
  have h3 : setAlter df Y = df := by
    obtain ⟨ai, hai⟩ := findCol_mem h.alter
    have hrows : df.rows.map (setRow (some ai) (fun r => ageOf Y (cellAt r gi)))
        = df.rows := by
      apply map_id_of_mem
      intro r hr
      have hax : cellN df.cols r (alterName Y) = cellAt r ai := by
        rw [cellN_eq, hai]
      have := h.age r hr
      rw [hax, hcell r] at this
      show r.set ai (ageOf Y (cellAt r gi)) = r
      rw [← this, set_cellAt_self]
    unfold setAlter
    rw [hgi]
    show df.setColFrom (alterName Y) (fun r => ageOf Y (cellAt r gi)) = df
    unfold DF.setColFrom
    rw [hai]
    simp only [Option.isSome_some, if_true]
    rw [hrows]
  have h4 : DF.dropC df ["Kontakte", "Anredeart"] = df := by
    refine dropC_eq_self ?_ h.wf
    intro n hn
    rcases List.mem_cons.1 hn with rfl | hn
    · exact h.noK
    · rcases List.mem_cons.1 hn with rfl | hn
      · exact h.noA
      · simp at hn
  have h5 : DF.renameC df = df := by
    unfold DF.renameC
    rw [h.ren]
  show DF.renameC (DF.dropC
      (if (findCol "Geburtsdatum" df.cols).isSome
       then setAlter (sortGeb (parseGeb df)) Y else df)
      ["Kontakte", "Anredeart"]) = df
  rw [hgi]
  simp only [Option.isSome_some, if_true]
  rw [h1, h2, h3, h4, h5]

theorem prepare_prepared (df : DF) (Y : Int) (hwf : df.WF)
    (hgeb : "Geburtsdatum" ∈ df.cols) : PreparedG (prepare df Y) Y := by
  obtain ⟨gi, hgi⟩ := findCol_mem hgeb
  have hP : prepare df Y =
      DF.renameC (DF.dropC (setAlter (sortGeb (parseGeb df)) Y)
        ["Kontakte", "Anredeart"]) := by
    simp only [prepare, hgi, Option.isSome_some, if_true]
  rw [hP]
  set A := parseGeb df with hA
  -- Stage A: the parsed frame
  have hAcols : A.cols = df.cols := by
    rw [hA]
    unfold parseGeb DF.mapCol
    rw [hgi]
  have hArows : A.rows = df.rows.map (fun r => r.set gi (parseDate (cellAt r gi))) := by
    rw [hA]
    unfold parseGeb DF.mapCol
    rw [hgi]
  have hAwf : A.WF := by rw [hA]; exact WF_mapCol hwf
  have hAgi : findCol "Geburtsdatum" A.cols = some gi := by rw [hAcols]; exact hgi
  have hAparsed : ∀ r ∈ A.rows, parseDate (cellAt r gi) = cellAt r gi := by
    intro r hr
    rw [hArows] at hr
    obtain ⟨r0, hr0, rfl⟩ := List.mem_map.1 hr
    have hgl : gi < r0.length := by
      rw [hwf r0 hr0]
      exact findCol_lt_length hgi
    rw [cellAt_set_self hgl, parseDate_idem]
  -- Stage B: sorted by birthday key
  set B := sortGeb A with hB
  have hBdef : B = DF.dropC (DF.mk A.cols (sortValues (gebLe gi) A.rows))
      ["_geburtstag_sort"] := by
    rw [hB]
    unfold sortGeb
    rw [hAgi]
  have hSwf : (DF.mk A.cols (sortValues (gebLe gi) A.rows)).WF := WF_sortRows hAwf
  have hBwf : B.WF := by rw [hBdef]; exact WF_dropC _ hSwf
  have hBcols : B.cols =
      A.cols.filter (fun c => !((["_geburtstag_sort"] : List String).contains c)) := by
    rw [hBdef]
    rfl
  have hBrows : B.rows =
      (sortValues (gebLe gi) A.rows).map (dropRow A.cols ["_geburtstag_sort"]) := by
    rw [hBdef]
    rfl
  have hBgeb : "Geburtsdatum" ∈ B.cols := by
    rw [hBdef]
    exact mem_dropC (show "Geburtsdatum" ∈ A.cols by rw [hAcols]; exact hgeb) (by decide)
  have hBtmp : "_geburtstag_sort" ∉ B.cols := by
    rw [hBdef]
    exact not_mem_dropC (by decide)
  have hBcell : ∀ r, cellN B.cols (dropRow A.cols ["_geburtstag_sort"] r)
      "Geburtsdatum" = cellAt r gi := by
    intro r
    have h1 : cellN B.cols (dropRow A.cols ["_geburtstag_sort"] r) "Geburtsdatum" =
        cellN A.cols r "Geburtsdatum" := by
      rw [hBcols]
      exact cellN_dropRow (by decide)
    rw [h1, cellN_eq, hAgi]
  have hBparsed : ∀ r ∈ B.rows,
      parseDate (cellN B.cols r "Geburtsdatum") = cellN B.cols r "Geburtsdatum" := by
    intro r hr
    rw [hBrows] at hr
    obtain ⟨r0, hr0, rfl⟩ := List.mem_map.1 hr
    have hr0' : r0 ∈ A.rows := (sortValues_perm _ _).mem_iff.1 hr0
    rw [hBcell r0]
    exact hAparsed r0 hr0'
  have hBsorted : B.rows.Pairwise (fun r1 r2 =>
      optPairLe (gebKey (cellN B.cols r1 "Geburtsdatum"))
        (gebKey (cellN B.cols r2 "Geburtsdatum")) = true) := by
    rw [hBrows, List.pairwise_map]
    refine (sortValues_pairwise (gebLe_total gi) (gebLe_trans gi) A.rows).imp ?_
    intro r1 r2 hr
    rw [hBcell r1, hBcell r2]
    exact hr
  -- Stage C: the derived age column
  obtain ⟨gi2, hgi2⟩ := findCol_mem hBgeb
  set C := setAlter B Y with hC
  have hCdef : C = B.setColFrom (alterName Y) (fun r => ageOf Y (cellAt r gi2)) := by
    rw [hC]
    unfold setAlter
    rw [hgi2]
  have hCwf : C.WF := by rw [hCdef]; exact WF_setColFrom hBwf
  have hCrows : C.rows = B.rows.map
      (setRow (findCol (alterName Y) B.cols) (fun r => ageOf Y (cellAt r gi2))) := by
    rw [hCdef]
    rfl
  have hCcols : C.cols = if (findCol (alterName Y) B.cols).isSome
      then B.cols else B.cols ++ [alterName Y] := by
    rw [hCdef]
    rfl
  have hgeb_ne : "Geburtsdatum" ≠ alterName Y :=
    Ne.symm (alterName_ne (by decide))
  have hCcell_geb : ∀ r, r.length = B.cols.length →
      cellN C.cols (setRow (findCol (alterName Y) B.cols)
        (fun r => ageOf Y (cellAt r gi2)) r) "Geburtsdatum" =
      cellN B.cols r "Geburtsdatum" := by
    intro r hlen
    rw [hCdef]
    exact cellN_setRow_other hlen hgeb_ne
  have hCcell_alter : ∀ r, r.length = B.cols.length →
      cellN C.cols (setRow (findCol (alterName Y) B.cols)
        (fun r => ageOf Y (cellAt r gi2)) r) (alterName Y) =
      ageOf Y (cellAt r gi2) := by
    intro r hlen
    rw [hCdef]
    exact cellN_setRow_self hlen
  have hCparsed : ∀ r ∈ C.rows,
      parseDate (cellN C.cols r "Geburtsdatum") = cellN C.cols r "Geburtsdatum" := by
    intro r hr
    rw [hCrows] at hr
    obtain ⟨r0, hr0, rfl⟩ := List.mem_map.1 hr
    rw [hCcell_geb r0 (hBwf r0 hr0)]
    exact hBparsed r0 hr0
  have hCage : ∀ r ∈ C.rows,
      cellN C.cols r (alterName Y) = ageOf Y (cellN C.cols r "Geburtsdatum") := by
    intro r hr
    rw [hCrows] at hr
    obtain ⟨r0, hr0, rfl⟩ := List.mem_map.1 hr
    rw [hCcell_alter r0 (hBwf r0 hr0), hCcell_geb r0 (hBwf r0 hr0)]
    congr 1
    rw [cellN_eq, hgi2]
  have hCsorted : C.rows.Pairwise (fun r1 r2 =>
      optPairLe (gebKey (cellN C.cols r1 "Geburtsdatum"))
        (gebKey (cellN C.cols r2 "Geburtsdatum")) = true) := by
    rw [hCrows, List.pairwise_map]
    refine hBsorted.imp_of_mem ?_
    intro r1 r2 h1 h2 hr
    rw [hCcell_geb r1 (hBwf r1 h1), hCcell_geb r2 (hBwf r2 h2)]
    exact hr
  have hCgeb : "Geburtsdatum" ∈ C.cols := by
    rw [hCcols]
    split
    · exact hBgeb
    · exact List.mem_append_left _ hBgeb
  have hCalter : alterName Y ∈ C.cols := by
    rw [hCcols]
    split
    · rename_i hsome
      exact findCol_isSome_iff.1 hsome
    · exact List.mem_append_right _ (by simp)
  have hCtmp : "_geburtstag_sort" ∉ C.cols := by
    rw [hCcols]
    split
    · exact hBtmp
    · intro hm
      rcases List.mem_append.1 hm with hm | hm
      · exact hBtmp hm
      · have : "_geburtstag_sort" = alterName Y := by simpa using hm
        exact alterName_ne (by decide) this.symm
  -- Stage D: obsolete columns dropped
  set D := C.dropC ["Kontakte", "Anredeart"] with hD
  have h_gebKA : "Geburtsdatum" ∉ (["Kontakte", "Anredeart"] : List String) := by decide
  have h_alterKA : alterName Y ∉ (["Kontakte", "Anredeart"] : List String) := by
    intro hm
    rcases List.mem_cons.1 hm with h | h
    · exact alterName_ne (by decide) h
    · rcases List.mem_cons.1 h with h | h
      · exact alterName_ne (by decide) h
      · simp at h
  have hDwf : D.WF := by rw [hD]; exact WF_dropC _ hCwf
  have hDrows : D.rows = C.rows.map (dropRow C.cols ["Kontakte", "Anredeart"]) := by
    rw [hD]
    rfl
  have hDcols : D.cols =
      C.cols.filter (fun c => !((["Kontakte", "Anredeart"] : List String).contains c)) := by
    rw [hD]
    rfl
  have hDcell_geb : ∀ r, cellN D.cols (dropRow C.cols ["Kontakte", "Anredeart"] r)
      "Geburtsdatum" = cellN C.cols r "Geburtsdatum" := by
    intro r
    rw [hDcols]
    exact cellN_dropRow h_gebKA
  have hDcell_alter : ∀ r, cellN D.cols (dropRow C.cols ["Kontakte", "Anredeart"] r)
      (alterName Y) = cellN C.cols r (alterName Y) := by
    intro r
    rw [hDcols]
    exact cellN_dropRow h_alterKA
  have hDgeb : "Geburtsdatum" ∈ D.cols := by rw [hD]; exact mem_dropC hCgeb h_gebKA
  have hDalter : alterName Y ∈ D.cols := by rw [hD]; exact mem_dropC hCalter h_alterKA
  have hDnoK : "Kontakte" ∉ D.cols := by rw [hD]; exact not_mem_dropC (by decide)
  have hDnoA : "Anredeart" ∉ D.cols := by rw [hD]; exact not_mem_dropC (by decide)
  have hDtmp : "_geburtstag_sort" ∉ D.cols := by
    rw [hDcols]
    intro hm
    exact hCtmp (List.mem_of_mem_filter hm)
  have hDparsed : ∀ r ∈ D.rows,
      parseDate (cellN D.cols r "Geburtsdatum") = cellN D.cols r "Geburtsdatum" := by
    intro r hr
    rw [hDrows] at hr
    obtain ⟨r0, hr0, rfl⟩ := List.mem_map.1 hr
    rw [hDcell_geb r0]
    exact hCparsed r0 hr0
  have hDage : ∀ r ∈ D.rows,
      cellN D.cols r (alterName Y) = ageOf Y (cellN D.cols r "Geburtsdatum") := by
    intro r hr
    rw [hDrows] at hr
    obtain ⟨r0, hr0, rfl⟩ := List.mem_map.1 hr
    rw [hDcell_geb r0, hDcell_alter r0]
    exact hCage r0 hr0
  have hDsorted : D.rows.Pairwise (fun r1 r2 =>
      optPairLe (gebKey (cellN D.cols r1 "Geburtsdatum"))
        (gebKey (cellN D.cols r2 "Geburtsdatum")) = true) := by
    rw [hDrows, List.pairwise_map]
    refine hCsorted.imp ?_
    intro r1 r2 hr
    rw [hDcell_geb r1, hDcell_geb r2]
    exact hr
  -- Stage P: renamed columns
  have hfix_geb : renameFn "Geburtsdatum" = "Geburtsdatum" := by decide
  have hinj_geb : ∀ c', renameFn c' = "Geburtsdatum" → c' = "Geburtsdatum" :=
    fun c' h => renameFn_eq_name (by decide) h
  have hfix_alter : renameFn (alterName Y) = alterName Y :=
    renameFn_eq_self (alterName_ne (by decide)) (alterName_ne (by decide))
      (alterName_ne (by decide)) (alterName_ne (by decide)) (alterName_ne (by decide))
      (alterName_ne (by decide))
  have hinj_alter : ∀ c', renameFn c' = alterName Y → c' = alterName Y := by
    intro c' h
    refine renameFn_eq_name ?_ h
    intro hm
    rcases List.mem_cons.1 hm with h' | hm
    · exact alterName_ne (by decide) h'
    rcases List.mem_cons.1 hm with h' | hm
    · exact alterName_ne (by decide) h'
    rcases List.mem_cons.1 hm with h' | hm
    · exact alterName_ne (by decide) h'
    rcases List.mem_cons.1 hm with h' | hm
    · exact alterName_ne (by decide) h'
    simp at hm
  have hPcols : (DF.renameC D).cols = D.cols.map renameFn := rfl
  have hProws : (DF.renameC D).rows = D.rows := rfl
  refine ⟨WF_renameC hDwf, ?_, ?_, ?_, ?_, ?_, ?_, ?_, ?_, ?_⟩
  · rw [hPcols]
    exact List.mem_map.2 ⟨_, hDgeb, hfix_geb⟩
  · rw [hPcols]
    exact List.mem_map.2 ⟨_, hDalter, hfix_alter⟩
  · intro r hr
    rw [hProws] at hr
    rw [hPcols, cellN_renameC hfix_geb hinj_geb]
    exact hDparsed r hr
  · rw [hProws]
    refine hDsorted.imp ?_
    intro r1 r2 hr
    rw [hPcols, cellN_renameC hfix_geb hinj_geb, cellN_renameC hfix_geb hinj_geb]
    exact hr
  · intro r hr
    rw [hProws] at hr
    rw [hPcols, cellN_renameC hfix_alter hinj_alter,
      cellN_renameC hfix_geb hinj_geb]
    exact hDage r hr
  · rw [hPcols]
    intro hm
    obtain ⟨c', hc', he⟩ := List.mem_map.1 hm
    have : c' = "Kontakte" := renameFn_eq_name (by decide) he
    exact hDnoK (this ▸ hc')
  · rw [hPcols]
    intro hm
    obtain ⟨c', hc', he⟩ := List.mem_map.1 hm
    have : c' = "Anredeart" := renameFn_eq_name (by decide) he
    exact hDnoA (this ▸ hc')
  · rw [hPcols]
    intro hm
    obtain ⟨c', hc', he⟩ := List.mem_map.1 hm
    have : c' = "_geburtstag_sort" := renameFn_eq_name (by decide) he
    exact hDtmp (this ▸ hc')
  · rw [hPcols, List.map_map]
    exact List.map_congr_left (fun c _ => renameFn_idem c)

theorem prepare_no_geb (df : DF) (Y : Int) (hgeb : "Geburtsdatum" ∉ df.cols) :
    prepare df Y = DF.renameC (df.dropC ["Kontakte", "Anredeart"]) := by
  have hgi : findCol "Geburtsdatum" df.cols = none := findCol_none_iff.2 hgeb
  simp only [prepare, hgi, Option.isSome_none, Bool.false_eq_true, if_false]

theorem prepare_of_no_geb {df : DF} {Y : Int} (hwf : df.WF)
    (hgeb : "Geburtsdatum" ∉ df.cols) (hK : "Kontakte" ∉ df.cols)
    (hA : "Anredeart" ∉ df.cols) (hren : df.cols.map renameFn = df.cols) :
    prepare df Y = df := by
  rw [prepare_no_geb df Y hgeb]
  have h4 : df.dropC ["Kontakte", "Anredeart"] = df := by
    refine dropC_eq_self ?_ hwf
    intro n hn
    rcases List.mem_cons.1 hn with rfl | hn
    · exact hK
    · rcases List.mem_cons.1 hn with rfl | hn
      · exact hA
      · simp at hn
  rw [h4]
  unfold DF.renameC
  rw [hren]

theorem prepare_no_geb_props (df : DF) (Y : Int) (hwf : df.WF)
    (hgeb : "Geburtsdatum" ∉ df.cols) :
    (prepare df Y).WF ∧ "Geburtsdatum" ∉ (prepare df Y).cols ∧
    "Kontakte" ∉ (prepare df Y).cols ∧ "Anredeart" ∉ (prepare df Y).cols ∧
    (prepare df Y).cols.map renameFn = (prepare df Y).cols := by
  rw [prepare_no_geb df Y hgeb]
  have hDwf : (df.dropC ["Kontakte", "Anredeart"]).WF := WF_dropC _ hwf
  have hDnoK : "Kontakte" ∉ (df.dropC ["Kontakte", "Anredeart"]).cols :=
    not_mem_dropC (by decide)
  have hDnoA : "Anredeart" ∉ (df.dropC ["Kontakte", "Anredeart"]).cols :=
    not_mem_dropC (by decide)
  have hDgeb : "Geburtsdatum" ∉ (df.dropC ["Kontakte", "Anredeart"]).cols :=
    fun hm => hgeb (List.mem_of_mem_filter hm)
  refine ⟨WF_renameC hDwf, ?_, ?_, ?_, ?_⟩
  · intro hm
    obtain ⟨c', hc', he⟩ := List.mem_map.1 hm
    have : c' = "Geburtsdatum" := renameFn_eq_name (by decide) he
    exact hDgeb (this ▸ hc')
  · intro hm
    obtain ⟨c', hc', he⟩ := List.mem_map.1 hm
    have : c' = "Kontakte" := renameFn_eq_name (by decide) he
    exact hDnoK (this ▸ hc')
  · intro hm
    obtain ⟨c', hc', he⟩ := List.mem_map.1 hm
    have : c' = "Anredeart" := renameFn_eq_name (by decide) he
    exact hDnoA (this ▸ hc')
  · show ((df.dropC ["Kontakte", "Anredeart"]).cols.map renameFn).map renameFn =
      (df.dropC ["Kontakte", "Anredeart"]).cols.map renameFn
    rw [List.map_map]
    exact List.map_congr_left (fun c _ => renameFn_idem c)

/-- The executable `prepare` (stable tie order) is functionally
idempotent; it realises one outcome of re-normalization, used below to
relate every relational re-normalization output to the first output. -/
theorem prepare_twice (df : DF) (Y : Int) (hwf : df.WF) :
    prepare (prepare df Y) Y = prepare df Y := by
  by_cases hgeb : "Geburtsdatum" ∈ df.cols
  · exact prepare_of_prepared (prepare_prepared df Y hwf hgeb)
  · obtain ⟨pwf, pgeb, pK, pA, pren⟩ := prepare_no_geb_props df Y hwf hgeb
    exact prepare_of_no_geb pwf pgeb pK pA pren

/-- The `sort_values` step of `prepare_dataframe` (app.py lines 23–26)
by its documented contract: some `gebLe`-sorted permutation of the rows,
then the key column dropped. -/
def sortGebR (df out : DF) : Prop :=
  match findCol "Geburtsdatum" df.cols with
  | some gi => ∃ sorted, SortedBy (gebLe gi) df.rows sorted ∧
      out = DF.dropC ⟨df.cols, sorted⟩ ["_geburtstag_sort"]
  | none => out = df

/-- `prepare_dataframe` (app.py lines 8–48) with the sort step taken by
its documented contract instead of one fixed tie order: `out` is a table
the program may return. -/
def PrepareR (df : DF) (Y : Int) (out : DF) : Prop :=
  if (findCol "Geburtsdatum" df.cols).isSome then
    ∃ mid, sortGebR (parseGeb df) mid ∧
      out = DF.renameC ((setAlter mid Y).dropC ["Kontakte", "Anredeart"])
  else out = DF.renameC (df.dropC ["Kontakte", "Anredeart"])

theorem parseGeb_cols (df : DF) : (parseGeb df).cols = df.cols := by
  unfold parseGeb DF.mapCol
  cases h : findCol "Geburtsdatum" df.cols with
  | some i => rfl
  | none => rfl

theorem parseGeb_rows_congr {X Z : DF} (hc : X.cols = Z.cols)
    (hr : X.rows.Perm Z.rows) : (parseGeb X).rows.Perm (parseGeb Z).rows := by
  unfold parseGeb DF.mapCol
  rw [hc]
  cases h : findCol "Geburtsdatum" Z.cols with
  | some i =>
    simp only []
    exact hr.map _
  | none =>
    simp only []
    exact hr

theorem sortGeb_congr {X Z : DF} (hc : X.cols = Z.cols)
    (hr : X.rows.Perm Z.rows) :
    (sortGeb X).cols = (sortGeb Z).cols ∧ (sortGeb X).rows.Perm (sortGeb Z).rows := by
  unfold sortGeb
  rw [hc]
  cases h : findCol "Geburtsdatum" Z.cols with
  | none => exact ⟨hc, hr⟩
  | some gi =>
    simp only []
    unfold DF.dropC
    simp only []
    refine ⟨by trivial, List.Perm.map _ ?_⟩
    exact ((sortValues_perm _ _).trans hr).trans (sortValues_perm _ _).symm

theorem setAlter_congr {X Z : DF} (Y : Int) (hc : X.cols = Z.cols)
    (hr : X.rows.Perm Z.rows) :
    (setAlter X Y).cols = (setAlter Z Y).cols ∧
    (setAlter X Y).rows.Perm (setAlter Z Y).rows := by
  unfold setAlter
  rw [hc]
  cases h : findCol "Geburtsdatum" Z.cols with
  | none => exact ⟨hc, hr⟩
  | some gi =>
    simp only []
    unfold DF.setColFrom
    simp only []
    rw [hc]
    exact ⟨rfl, hr.map _⟩

theorem dropC_congr {X Z : DF} (names : List String) (hc : X.cols = Z.cols)
    (hr : X.rows.Perm Z.rows) :
    (X.dropC names).cols = (Z.dropC names).cols ∧
    (X.dropC names).rows.Perm (Z.dropC names).rows := by
  unfold DF.dropC
  rw [hc]
  exact ⟨rfl, hr.map _⟩

theorem renameC_congr {X Z : DF} (hc : X.cols = Z.cols)
    (hr : X.rows.Perm Z.rows) :
    (DF.renameC X).cols = (DF.renameC Z).cols ∧
    (DF.renameC X).rows.Perm (DF.renameC Z).rows := by
  unfold DF.renameC
  rw [hc]
  exact ⟨rfl, hr⟩

/-- `prepare` is columnwise and rowwise: its column list depends only on
the input's columns, its rows are an elementwise image of the (sorted)
input rows — so equal-column inputs with permuted rows give equal-column
outputs with permuted rows. -/
theorem prepare_congr {X Z : DF} (Y : Int) (hc : X.cols = Z.cols)
    (hr : X.rows.Perm Z.rows) :
    (prepare X Y).cols = (prepare Z Y).cols ∧
    (prepare X Y).rows.Perm (prepare Z Y).rows := by
  unfold prepare
  rw [hc]
  cases h : (findCol "Geburtsdatum" Z.cols).isSome with
  | false =>
    simp only [Bool.false_eq_true, if_false]
    obtain ⟨hc4, hr4⟩ := dropC_congr ["Kontakte", "Anredeart"] hc hr
    exact renameC_congr hc4 hr4
  | true =>
    simp only [eq_self_iff_true, if_true]
    have hc1 : (parseGeb X).cols = (parseGeb Z).cols := by
      rw [parseGeb_cols, parseGeb_cols, hc]
    obtain ⟨hc2, hr2⟩ := sortGeb_congr hc1 (parseGeb_rows_congr hc hr)
    obtain ⟨hc3, hr3⟩ := setAlter_congr Y hc2 hr2
    obtain ⟨hc4, hr4⟩ := dropC_congr ["Kontakte", "Anredeart"] hc3 hr3
    exact renameC_congr hc4 hr4

/-- Every table permitted by `PrepareR` has the columns of the executable
output and a permutation of its rows. -/
theorem prepareR_spec {df out : DF} {Y : Int} (h : PrepareR df Y out) :
    out.cols = (prepare df Y).cols ∧ out.rows.Perm (prepare df Y).rows := by
  unfold PrepareR at h
  cases hg : (findCol "Geburtsdatum" df.cols).isSome with
  | false =>
    rw [hg] at h
    simp only [Bool.false_eq_true, if_false] at h
    subst h
    have hpr : prepare df Y = DF.renameC (df.dropC ["Kontakte", "Anredeart"]) := by
      unfold prepare
      rw [hg]
      simp only [Bool.false_eq_true, if_false]
    rw [hpr]
    exact ⟨rfl, List.Perm.refl _⟩
  | true =>
    rw [hg] at h
    simp only [eq_self_iff_true, if_true] at h
    obtain ⟨mid, hmid, rfl⟩ := h
    cases hfc : findCol "Geburtsdatum" df.cols with
    | none =>
      rw [hfc] at hg
      exact absurd hg (by decide)
    | some gi =>
      have hpc : (parseGeb df).cols = df.cols := parseGeb_cols df
      unfold sortGebR at hmid
      rw [hpc, hfc] at hmid
      simp only [] at hmid
      obtain ⟨sorted, ⟨hperm, hpair⟩, rfl⟩ := hmid
      have hpr : prepare df Y =
          DF.renameC ((setAlter (sortGeb (parseGeb df)) Y).dropC
            ["Kontakte", "Anredeart"]) := by
        unfold prepare
        rw [hg]
        simp only [eq_self_iff_true, if_true]
      rw [hpr]
      have hsg : sortGeb (parseGeb df) =
          DF.dropC ⟨df.cols, sortValues (gebLe gi) (parseGeb df).rows⟩
            ["_geburtstag_sort"] := by
        unfold sortGeb
        rw [hpc, hfc]
      rw [hsg]
      have hmidperm : sorted.Perm (sortValues (gebLe gi) (parseGeb df).rows) :=
        hperm.trans (sortValues_perm _ _).symm
      obtain ⟨hc2, hr2⟩ := @dropC_congr ⟨df.cols, sorted⟩
        ⟨df.cols, sortValues (gebLe gi) (parseGeb df).rows⟩
        ["_geburtstag_sort"] rfl hmidperm
      obtain ⟨hc3, hr3⟩ := setAlter_congr Y hc2 hr2
      obtain ⟨hc4, hr4⟩ := dropC_congr ["Kontakte", "Anredeart"] hc3 hr3
      exact renameC_congr hc4 hr4

/-- The executable `prepare` is one permitted outcome of `PrepareR`. -/
theorem prepare_sat (df : DF) (Y : Int) : PrepareR df Y (prepare df Y) := by
  unfold PrepareR prepare
  cases hg : (findCol "Geburtsdatum" df.cols).isSome with
  | false =>
    simp only [Bool.false_eq_true, if_false]
  | true =>
    simp only [eq_self_iff_true, if_true]
    refine ⟨sortGeb (parseGeb df), ?_, rfl⟩
    cases hfc : findCol "Geburtsdatum" df.cols with
    | none =>
      rw [hfc] at hg
      exact absurd hg (by decide)
    | some gi =>
      have hpc : (parseGeb df).cols = df.cols := parseGeb_cols df
      unfold sortGebR sortGeb
      rw [hpc, hfc]
      exact ⟨sortValues (gebLe gi) (parseGeb df).rows,
        ⟨sortValues_perm _ _,
         sortValues_pairwise (gebLe_total gi) (gebLe_trans gi) _⟩, rfl⟩

/-- C4 (amended) — normalization is idempotent up to the tie order the
sort leaves open: for every table `out1` the normalizer may return for
`df` and every table `out2` it may return when re-run on `out1`, `out2`
has exactly the columns of `out1` (none added, renamed or duplicated)
and a permutation of its rows (no cell value changes; only the order of
rows with equal `(month, day)` keys is unconstrained, because
`sort_values` runs with the default `kind="quicksort"`, which pandas
does not document as stable). -/
theorem prepare_idem_upto (df : DF) (Y : Int) (hwf : df.WF)
    (out1 out2 : DF) (h1 : PrepareR df Y out1) (h2 : PrepareR out1 Y out2) :
    out2.cols = out1.cols ∧ out2.rows.Perm out1.rows := by
  obtain ⟨hc1, hr1⟩ := prepareR_spec h1
  obtain ⟨hc2, hr2⟩ := prepareR_spec h2
  obtain ⟨hc3, hr3⟩ := prepare_congr Y hc1 hr1
  have hidem : prepare (prepare df Y) Y = prepare df Y := prepare_twice df Y hwf
  rw [hidem] at hc3 hr3
  constructor
  · rw [hc2, hc3, ← hc1]
  · exact (hr2.trans hr3).trans hr1.symm

/-- Two rows with the same `(month, day)` key `(5, 1)`. -/
def exC4 : DF :=
  ⟨["Vorname", "Geburtsdatum"],
   [[Value.str "Anna", Value.str "01.05.1990"],
    [Value.str "Bert", Value.str "01.05.1980"]]⟩

/-- One normalization output of `exC4` (the tie in original order). -/
def exC4out1 : DF :=
  ⟨["Vorname", "Geburtsdatum", "Alter 2026"],
   [[Value.str "Anna", Value.date 1990 5 1, Value.int 36],
    [Value.str "Bert", Value.date 1980 5 1, Value.int 46]]⟩

/-- A permitted re-normalization output of `exC4out1`: the tied rows
swapped. -/
def exC4out2 : DF :=
  ⟨["Vorname", "Geburtsdatum", "Alter 2026"],
   [[Value.str "Bert", Value.date 1980 5 1, Value.int 46],
    [Value.str "Anna", Value.date 1990 5 1, Value.int 36]]⟩

theorem prepR_ex1 : PrepareR exC4 2026 exC4out1 := by
  unfold PrepareR
  rw [if_pos (by decide)]
  refine ⟨DF.dropC ⟨(parseGeb exC4).cols, (parseGeb exC4).rows⟩
    ["_geburtstag_sort"], ?_, by decide⟩
  unfold sortGebR
  rw [show findCol "Geburtsdatum" (parseGeb exC4).cols = some 1 from by decide]
  exact ⟨(parseGeb exC4).rows, ⟨List.Perm.refl _, by decide⟩, rfl⟩

theorem prepR_ex2 : PrepareR exC4out1 2026 exC4out2 := by
  unfold PrepareR
  rw [if_pos (by decide)]
  refine ⟨DF.dropC ⟨(parseGeb exC4out1).cols,
    [[Value.str "Bert", Value.date 1980 5 1, Value.int 46],
     [Value.str "Anna", Value.date 1990 5 1, Value.int 36]]⟩
    ["_geburtstag_sort"], ?_, by decide⟩
  unfold sortGebR
  rw [show findCol "Geburtsdatum" (parseGeb exC4out1).cols = some 1 from by decide]
  refine ⟨_, ⟨?_, by decide⟩, rfl⟩
  show List.Perm _ (parseGeb exC4out1).rows
  have hrows : (parseGeb exC4out1).rows =
      [[Value.str "Anna", Value.date 1990 5 1, Value.int 36],
       [Value.str "Bert", Value.date 1980 5 1, Value.int 46]] := by decide
  rw [hrows]
  exact List.Perm.swap _ _ _

/-- Counterexample to the original C4: `exC4out1` is a normalization of
`exC4` (so it is already-normalized data), yet re-running the normalizer
on it may return `exC4out2`, which differs from `exC4out1` — the two
rows share the sort key `(5, 1)` and the default quicksort fixes no tie
order, so idempotence as table equality is not a program guarantee. -/
theorem prepare_unstable_counterexample :
    PrepareR exC4 2026 exC4out1 ∧ PrepareR exC4out1 2026 exC4out2 ∧
    exC4out2 ≠ exC4out1 :=
  ⟨prepR_ex1, prepR_ex2, by decide⟩

/-- Witness for C4 (amended) at the concrete tie table: the swapped
re-normalization output keeps the columns and the row multiset. -/
theorem prepare_idem_upto_witness :
    exC4out2.cols = exC4out1.cols ∧ exC4out2.rows.Perm exC4out1.rows :=
  prepare_idem_upto exC4 2026 (by unfold DF.WF; decide) exC4out1 exC4out2
    prepR_ex1 prepR_ex2

/-- C5 — in normalized output (birth-date column present), consecutive
rows that both carry a parsed date are in lexicographic
`(month, day)` order, and once a row has a missing date every later row
has a missing date too (nulls sort last). -/
theorem prepare_date_order (df : DF) (Y : Int) (hwf : df.WF)
    (hgeb : "Geburtsdatum" ∈ df.cols) :
    ((prepare df Y).rows.Chain' (fun r1 r2 =>
      ∀ y1 m1 d1 y2 m2 d2,
        cellN (prepare df Y).cols r1 "Geburtsdatum" = .date y1 m1 d1 →
        cellN (prepare df Y).cols r2 "Geburtsdatum" = .date y2 m2 d2 →
        (m1 < m2 ∨ (m1 = m2 ∧ d1 ≤ d2)))) ∧
    ((prepare df Y).rows.Pairwise (fun r1 r2 =>
      cellN (prepare df Y).cols r1 "Geburtsdatum" = .null →
      cellN (prepare df Y).cols r2 "Geburtsdatum" = .null)) := by
  have h := prepare_prepared df Y hwf hgeb
  constructor
  · refine List.Pairwise.chain' (h.sorted.imp ?_)
    intro r1 r2 hr y1 m1 d1 y2 m2 d2 e1 e2
    rw [e1, e2] at hr
    simp only [gebKey, optPairLe, pairLe] at hr
    simp at hr
    omega
  · refine h.sorted.imp_of_mem ?_
    intro r1 r2 _ hm2 hr e1
    rw [e1] at hr
    cases hcell : cellN (prepare df Y).cols r2 "Geburtsdatum" with
    | null => rfl
    | date y m d =>
      rw [hcell] at hr
      simp [gebKey, optPairLe] at hr
    | str s =>
      have hp := h.parsed r2 hm2
      rw [hcell] at hp
      exfalso
      simp only [parseDate] at hp
      cases hps : parseDateStr s with
      | none => rw [hps] at hp; exact Value.noConfusion hp
      | some t =>
        rw [hps] at hp
        obtain ⟨y, m, d⟩ := t
        exact Value.noConfusion hp
    | int n =>
      have hp := h.parsed r2 hm2
      rw [hcell] at hp
      exact Value.noConfusion hp

/-- Witness for C5: table with a dated, an undated, and an out-of-order
dated row. -/
theorem prepare_date_order_witness :
    (((prepare (DF.mk ["Geburtsdatum"]
        [[Value.str "01.05.1980"], [Value.str "x"], [Value.str "24.02.1990"]]) 2026).rows.Chain'
      (fun r1 r2 =>
        ∀ y1 m1 d1 y2 m2 d2,
          cellN (prepare (DF.mk ["Geburtsdatum"]
            [[Value.str "01.05.1980"], [Value.str "x"], [Value.str "24.02.1990"]]) 2026).cols
              r1 "Geburtsdatum" = .date y1 m1 d1 →
          cellN (prepare (DF.mk ["Geburtsdatum"]
            [[Value.str "01.05.1980"], [Value.str "x"], [Value.str "24.02.1990"]]) 2026).cols
              r2 "Geburtsdatum" = .date y2 m2 d2 →
          (m1 < m2 ∨ (m1 = m2 ∧ d1 ≤ d2)))) ∧
     ((prepare (DF.mk ["Geburtsdatum"]
        [[Value.str "01.05.1980"], [Value.str "x"], [Value.str "24.02.1990"]]) 2026).rows.Pairwise
      (fun r1 r2 =>
        cellN (prepare (DF.mk ["Geburtsdatum"]
          [[Value.str "01.05.1980"], [Value.str "x"], [Value.str "24.02.1990"]]) 2026).cols
            r1 "Geburtsdatum" = .null →
        cellN (prepare (DF.mk ["Geburtsdatum"]
          [[Value.str "01.05.1980"], [Value.str "x"], [Value.str "24.02.1990"]]) 2026).cols
            r2 "Geburtsdatum" = .null))) :=
  prepare_date_order _ 2026 (by unfold DF.WF; decide) (by decide)

/-- C8 — for every normalized row, the derived age cell is exactly
`targetYear - birthYear` when the birth date parsed, and missing when
the birth date is missing. -/
theorem prepare_age (df : DF) (Y : Int) (hwf : df.WF)
    (hgeb : "Geburtsdatum" ∈ df.cols) :
    ∀ r ∈ (prepare df Y).rows,
      (∀ y m d, cellN (prepare df Y).cols r "Geburtsdatum" = .date y m d →
        cellN (prepare df Y).cols r (alterName Y) = .int (Y - (y : Int))) ∧
      (cellN (prepare df Y).cols r "Geburtsdatum" = .null →
        cellN (prepare df Y).cols r (alterName Y) = .null) := by
  have h := prepare_prepared df Y hwf hgeb
  intro r hr
  constructor
  · intro y m d e
    rw [h.age r hr, e]
    rfl
  · intro e
    rw [h.age r hr, e]
    rfl

def exC8 : DF := DF.mk ["Geburtsdatum"] [[Value.str "03.07.1950"], [Value.str "x"]]

/-- Witness for C8: born 1950, target year 2026, age cell 2026 − 1950 = 76
on the dated row; the unparseable row keeps a missing age. -/
theorem prepare_age_witness :
    cellN (prepare exC8 2026).cols ((prepare exC8 2026).rows.getD 0 [])
      (alterName 2026) = Value.int (2026 - ((1950 : Nat) : Int)) ∧
    cellN (prepare exC8 2026).cols ((prepare exC8 2026).rows.getD 1 [])
      (alterName 2026) = Value.null :=
  ⟨(prepare_age exC8 2026 (by unfold DF.WF; decide) (by decide)
      ((prepare exC8 2026).rows.getD 0 []) (by decide)).1 1950 7 3 (by decide),
   (prepare_age exC8 2026 (by unfold DF.WF; decide) (by decide)
      ((prepare exC8 2026).rows.getD 1 []) (by decide)).2 (by decide)⟩

/-- Zero-padded two-digit decimal rendering (strftime `%d` / `%m`). -/
def pad2 (n : Nat) : String := if n < 10 then "0" ++ toString n else toString n

/-- Four-digit decimal year rendering (strftime `%Y`). -/
def pad4 (n : Nat) : String :=
  if n < 10 then "000" ++ toString n
  else if n < 100 then "00" ++ toString n
  else if n < 1000 then "0" ++ toString n
  else toString n

/-- C9 — date parsing is day-first on ambiguous numeric dates
(`"03/04/2000"` is April 3rd, and in general `a<sep>b<sep>year` with both
components at most 12 reads `a` as the day), an impossible date coerces
to null, and parsing any cell either yields a date or null — it never
raises. -/
theorem parseDate_dayfirst_total :
    parseDate (.str "03/04/2000") = .date 2000 4 3 ∧
    (∀ a b : Fin 12,
      parseDate (.str (pad2 (a.1 + 1) ++ "/" ++ pad2 (b.1 + 1) ++ "/2000")) =
        .date 2000 (b.1 + 1) (a.1 + 1)) ∧
    parseDate (.str "31.02.2020") = .null ∧
    (∀ v, parseDate v = .null ∨ ∃ y m d, parseDate v = .date y m d) := by
  refine ⟨by decide, by decide, by decide, ?_⟩
  intro v
  cases v with
  | null => left; rfl
  | int n => left; rfl
  | date y m d => right; exact ⟨y, m, d, rfl⟩
  | str s =>
    cases h : parseDateStr s with
    | none => left; simp [parseDate, h]
    | some t =>
      right
      obtain ⟨y, m, d⟩ := t
      exact ⟨y, m, d, by simp [parseDate, h]⟩

/-- Month sheet titles (app.py lines 76–89 and 163), with the
`f"Monat_{monat}"` fallback of `monat_namen.get`. -/
def monatName (m : Nat) : String :=
  match m with
  | 1 => "Januar"
  | 2 => "Februar"
  | 3 => "März"
  | 4 => "April"
  | 5 => "Mai"
  | 6 => "Juni"
  | 7 => "Juli"
  | 8 => "August"
  | 9 => "September"
  | 10 => "Oktober"
  | 11 => "November"
  | 12 => "Dezember"
  | _ => "Monat_" ++ toString m

/-- `dt.month` of one cell. -/
def monthVal (v : Value) : Value :=
  match v with
  | .date _ m _ => .int (m : Int)
  | _ => .null

/-- `dt.day` of one cell. -/
def dayVal (v : Value) : Value :=
  match v with
  | .date _ _ d => .int (d : Int)
  | _ => .null

/-- app.py lines 66–74: split off the rows without a birth date and add
the helper columns `Monat` and `Tag` to the dated group.  When there is
no `Geburtsdatum` column at all, BOTH groups stay the empty frame
`pd.DataFrame()`, so such rows reach no sheet.  Returns
`(df_with_date, df_no_date)`. -/
def splitGeb (df : DF) : DF × DF :=
  match findCol "Geburtsdatum" df.cols with
  | none => (⟨[], []⟩, ⟨[], []⟩)
  | some gi =>
    let dfn : DF := ⟨df.cols, df.rows.filter (fun r => cellAt r gi == .null)⟩
    let dfw0 : DF := ⟨df.cols, df.rows.filter (fun r => !(cellAt r gi == .null))⟩
    let dfw1 := dfw0.setColFrom "Monat" (fun r => monthVal (cellAt r gi))
    let dfw2 := dfw1.setColFrom "Tag" (fun r => dayVal (cellAt r gi))
    (dfw2, dfn)

/-- `DataFrame.empty`: an axis of length zero. -/
def isEmptyDF (df : DF) : Bool := df.rows.isEmpty || df.cols.isEmpty

/-- The membership column candidates of app.py line 119, tried in order
with case-sensitive exact matching. -/
def mitglKandidaten : List String :=
  ["Mitgliedschaft", "mitgliedschaft", "Mitglied", "mitglied"]

def findMitgl (cols : List String) : Option String :=
  mitglKandidaten.find? (fun c => cols.contains c)

def startsWithChars : List Char → List Char → Bool
  | [], _ => true
  | _ :: _, [] => false
  | a :: as, b :: bs => a == b && startsWithChars as bs

def subChars (pat : List Char) : List Char → Bool
  | [] => pat.isEmpty
  | c :: cs => startsWithChars pat (c :: cs) || subChars pat cs

/-- Python `needle in hay` on strings: contiguous substring test. -/
def subStr (needle hay : String) : Bool := subChars needle.data hay.data

/-- `s.lower()` (the pipeline's headers and tokens are ASCII plus
already-lowercase umlauts, for which per-character lowering agrees). -/
def lowerStr (s : String) : String := ⟨s.data.map Char.toLower⟩

def trimChars (cs : List Char) : List Char :=
  ((cs.dropWhile Char.isWhitespace).reverse.dropWhile Char.isWhitespace).reverse

/-- `str(col).strip().lower().replace(" ", "")` (app.py line 127). -/
def normHeader (c : String) : String :=
  ⟨((trimChars c.data).map Char.toLower).filter (fun ch => !(ch == ' '))⟩

/-- The correspondence-language header test of app.py lines 126–133 (and
238–244): normalized name equals one of two known spellings, or contains
a `korresp`/`korrespondenz` fragment together with a `sprache`
fragment. -/
def corrMatch (c : String) : Bool :=
  (normHeader c == "korrespondenzsprache" || normHeader c == "korrespsprache") ||
  ((subStr "korresp" (normHeader c) || subStr "korrespondenz" (normHeader c)) &&
    subStr "sprache" (normHeader c))

/-- First column matching the correspondence-language test, scanning in
header order (the loop breaks at the first hit). -/
def findCorr (cols : List String) : Option String := cols.find? corrMatch

/-- `dt.strftime("%d.%m.%Y")` on one cell (`NaN` for `NaT`). -/
def displayVal (v : Value) : Value :=
  match v with
  | .date y m d => .str (pad2 d ++ "." ++ pad2 m ++ "." ++ pad4 y)
  | _ => .null

/-- app.py lines 136–151: the desired month-sheet columns in order; the
membership column is appended at the end, then the
correspondence-language column is inserted directly after `Ort`
(position 7). -/
def monthDesired (Y : Int) (mitgl corr : Option String) : List String :=
  let base := ["Vorname", "Nachname", "Geburtsdatum (TT.MM.JJJJ)", "Firma",
    "Strasse", "PLZ", "Ort", alterName Y]
  let base1 := match mitgl with
    | some mc => base ++ [mc]
    | none => base
  match corr with
  | some cc => base1.insertIdx 7 cc
  | none => base1

/-- app.py lines 152–158: keep the desired columns that exist, re-append
the correspondence column if it got filtered away (dead in practice, it
always exists when found), and fall back to all columns when nothing is
left. -/
def sheetColsFor (dfmCols : List String) (Y : Int) (mitgl corr : Option String) :
    List String :=
  let sc := (monthDesired Y mitgl corr).filter (fun c => dfmCols.contains c)
  let sc1 := match corr with
    | some cc => if sc.contains cc then sc else sc ++ [cc]
    | none => sc
  if sc1.isEmpty then dfmCols else sc1

/-- `df[sheet_cols]`: select columns by label in the given order. -/
def projRow (cols sc : List String) (r : List Value) : List Value :=
  sc.map (fun c => cellN cols r c)

/-- `chr(ord("A") + idx)`, as the code builds column letters; a valid
Excel column letter only for `idx ≤ 25`. -/
def colLetter (i : Nat) : String := String.singleton (Char.ofNat (65 + i))

/-- The round-birthday range `f"{L}2:{L}{row_end + 1}"` (app.py line 190). -/
def roundRange (i nrows : Nat) : String :=
  colLetter i ++ "2:" ++ colLetter i ++ toString (nrows + 1)

/-- The honorary whole-row range `f"A2:{L}{row_end + 1}"`
(app.py lines 214 and 284). -/
def honRange (ncols nrows : Nat) : String :=
  "A2:" ++ colLetter (ncols - 1) ++ toString (nrows + 1)

/-- The three honorary-role tokens (app.py lines 212 and 282). -/
def honTokens : List String := ["Ehrenmitglied", "Ehrenpräsident", "Prinzenrolle"]

/-- Conditional-format rule kinds the builder generates: the green
round-birthday rule on the age column, and a yellow honorary-role rule
anchored on the membership column. -/
inductive CFKind where
  | roundAge (colIdx : Nat)
  | honorary (token : String) (mgIdx : Nat)
deriving DecidableEq, Repr

/-- One `worksheet.conditional_format(range, {...})` call: the A1 range
string exactly as built, plus the rule it carries. -/
structure CondFmt where
  range : String
  kind : CFKind
deriving DecidableEq, Repr

structure Sheet where
  name : String
  header : List String
  rows : List (List Value)
  condFmts : List CondFmt
deriving DecidableEq, Repr

/-- `sheet_cols.index(c)` (guarded by membership in the code). -/
def idxIn (sc : List String) (c : String) : Nat := (findCol c sc).getD 0

/-- The conditional formats of one month sheet (app.py lines 184–220):
the round-birthday rule when the age column is present, then one
honorary rule per token when a membership column was found. -/
def monthFmts (sc : List String) (Y : Int) (mitgl : Option String) (nrows : Nat) :
    List CondFmt :=
  (if sc.contains (alterName Y) then
    [⟨roundRange (idxIn sc (alterName Y)) nrows, .roundAge (idxIn sc (alterName Y))⟩]
   else []) ++
  (match mitgl with
   | some mc =>
     if sc.contains mc then
       honTokens.map (fun t => ⟨honRange sc.length nrows, .honorary t (idxIn sc mc)⟩)
     else []
   | none => [])

/-- The month bucket `df_with_date[df_with_date["Monat"] == monat]`. -/
def bucketRows (dfw : DF) (m : Nat) : List (List Value) :=
  match findCol "Monat" dfw.cols with
  | some mi => dfw.rows.filter (fun r => cellAt r mi == .int (m : Int))
  | none => []

def intKey (v : Value) : Option Int :=
  match v with
  | .int n => some n
  | _ => none

def optIntLe (a b : Option Int) : Bool :=
  match a, b with
  | some x, some y => decide (x ≤ y)
  | some _, none => true
  | none, some _ => false
  | none, none => true

/-- `df_monat.sort_values("Tag")` (app.py lines 108–109), skipped when
there is no `Tag` column; missing keys sort last. -/
def sortTag (dfw : DF) (rows : List (List Value)) : List (List Value) :=
  match findCol "Tag" dfw.cols with
  | some ti =>
    sortValues (fun r1 r2 => optIntLe (intKey (cellAt r1 ti)) (intKey (cellAt r2 ti))) rows
  | none => rows

/-- The month bucket frame after sorting by `Tag` and adding the display
column `Geburtsdatum (TT.MM.JJJJ)` (app.py lines 102–115). -/
def monthFrame (dfw : DF) (m : Nat) : DF :=
  let dfm : DF := ⟨dfw.cols, sortTag dfw (bucketRows dfw m)⟩
  match findCol "Geburtsdatum" dfm.cols with
  | some gi =>
    dfm.setColFrom "Geburtsdatum (TT.MM.JJJJ)" (fun r => displayVal (cellAt r gi))
  | none => dfm

/-- One month sheet (app.py lines 101–220); `none` when the bucket is
empty (`continue`). -/
def mkMonthSheet (dfw : DF) (Y : Int) (m : Nat) : Option Sheet :=
  if (bucketRows dfw m).isEmpty then none
  else
    let dfm1 := monthFrame dfw m
    let sc := sheetColsFor dfm1.cols Y (findMitgl dfm1.cols) (findCorr dfm1.cols)
    let exRows := dfm1.rows.map (projRow dfm1.cols sc)
    some ⟨monatName m, sc, exRows, monthFmts sc Y (findMitgl dfm1.cols) exRows.length⟩

/-- app.py lines 226–249: desired columns of the undated sheet, with the
correspondence-language column inserted after `Ort` (position 6). -/
def noDateDesired (corr : Option String) : List String :=
  let base := ["Vorname", "Nachname", "Firma", "Strasse", "PLZ", "Ort", "Mitgliedschaft"]
  match corr with
  | some cc => base.insertIdx 6 cc
  | none => base

/-- app.py lines 254–257: append each remaining column not yet chosen,
in original order. -/
def appendMissing (cols acc : List String) : List String :=
  cols.foldl (fun a c => if a.contains c then a else a ++ [c]) acc

/-- The column list of the `Ohne_Geburtsdatum` sheet (app.py 226–261). -/
def noDateCols (dfnCols : List String) : List String :=
  let sc0 := (noDateDesired (findCorr dfnCols)).filter (fun c => dfnCols.contains c)
  let sc1 := appendMissing dfnCols sc0
  if sc1.isEmpty then dfnCols else sc1

/-- Honorary rules of the undated sheet (app.py lines 278–290): only the
exact label `Mitgliedschaft` counts here. -/
def noDateFmts (sc : List String) (nrows : Nat) : List CondFmt :=
  if sc.contains "Mitgliedschaft" then
    honTokens.map (fun t => ⟨honRange sc.length nrows, .honorary t (idxIn sc "Mitgliedschaft")⟩)
  else []

/-- The `Ohne_Geburtsdatum` sheet (app.py lines 223–290). -/
def mkNoDateSheet (dfn : DF) : Sheet :=
  let sc := noDateCols dfn.cols
  let exRows := dfn.rows.map (projRow dfn.cols sc)
  ⟨"Ohne_Geburtsdatum", sc, exRows, noDateFmts sc exRows.length⟩

/-- The degenerate-input placeholder sheet (app.py lines 292–296). -/
def placeholderSheet : Sheet :=
  ⟨"Keine_Daten", ["Info"], [[.str "Keine Daten vorhanden"]], []⟩

/-- The sheet list of `build_geburtstagsliste_excel` (app.py lines
63–296): the per-month sheets in month order, then the optional undated
sheet, then the placeholder when nothing else was written. -/
def buildSheets (df : DF) (Y : Int) (inc : Bool) : List Sheet :=
  let dfw := (splitGeb df).1
  let dfn := (splitGeb df).2
  let monthGuard := !(isEmptyDF dfw) && dfw.cols.contains "Monat" &&
    (match findCol "Monat" dfw.cols with
     | some mi => dfw.rows.any (fun r => !(cellAt r mi == .null))
     | none => false)
  let ms := if monthGuard then (List.range' 1 12).filterMap (mkMonthSheet dfw Y) else []
  let us := if inc && !(isEmptyDF dfn) then [mkNoDateSheet dfn] else []
  let ph := if isEmptyDF dfw && (!inc || isEmptyDF dfn) then [placeholderSheet] else []
  ms ++ us ++ ph

/-- Big-endian decimal digit characters of `n` (the digits of
`Nat.repr`). -/
def natDigits (n : Nat) : List Char :=
  if n < 10 then [Nat.digitChar n]
  else natDigits (n / 10) ++ [Nat.digitChar (n % 10)]
decreasing_by exact Nat.div_lt_self (by omega) (by omega)

theorem toDigitsCore_eq (fuel : Nat) : ∀ (n : Nat) (acc : List Char), n < fuel →
    Nat.toDigitsCore 10 fuel n acc = natDigits n ++ acc := by
  induction fuel with
  | zero => intro n acc h; omega
  | succ f ih =>
    intro n acc h
    have hstep : Nat.toDigitsCore 10 (f + 1) n acc =
        if n / 10 = 0 then Nat.digitChar (n % 10) :: acc
        else Nat.toDigitsCore 10 f (n / 10) (Nat.digitChar (n % 10) :: acc) := by
      simp [Nat.toDigitsCore]
    rw [hstep]
    by_cases hz : n / 10 = 0
    · rw [if_pos hz]
      have hn : n < 10 := by omega
      rw [natDigits, if_pos hn, Nat.mod_eq_of_lt hn]
      rfl
    · rw [if_neg hz]
      have hn : ¬ n < 10 := by omega
      have hlt : n / 10 < f := by omega
      have hnd : natDigits n = natDigits (n / 10) ++ [Nat.digitChar (n % 10)] := by
        rw [natDigits]
        rw [if_neg hn]
      rw [ih (n / 10) _ hlt, hnd]
      simp

theorem repr_data (n : Nat) : (Nat.repr n).data = natDigits n := by
  show (Nat.toDigits 10 n).asString.data = natDigits n
  rw [show Nat.toDigits 10 n = Nat.toDigitsCore 10 (n + 1) n [] from rfl]
  rw [toDigitsCore_eq (n + 1) n [] (by omega)]
  simp [List.asString]

/-- Uppercase `A`–`Z` test (on code points). -/
def isUpperAZ (c : Char) : Bool := decide (65 ≤ c.toNat) && decide (c.toNat ≤ 90)

/-- Decimal digit test (on code points). -/
def isDigitC (c : Char) : Bool := decide (48 ≤ c.toNat) && decide (c.toNat ≤ 57)

theorem not_upper_of_digit {c : Char} (h : isDigitC c = true) : isUpperAZ c = false := by
  simp only [isDigitC, Bool.and_eq_true, decide_eq_true_eq] at h
  simp only [isUpperAZ, Bool.and_eq_false_iff, decide_eq_false_iff_not]
  left
  omega

theorem natDigits_all_digits (n : Nat) : ∀ c ∈ natDigits n, isDigitC c = true := by
  induction n using Nat.strong_induction_on with
  | _ n ih =>
    by_cases h : n < 10
    · rw [natDigits, if_pos h]
      intro c hc
      simp at hc
      subst hc
      have hk : ∀ k, k < 10 → isDigitC (Nat.digitChar k) = true := by decide
      exact hk n h
    · rw [natDigits, if_neg h]
      intro c hc
      rcases List.mem_append.1 hc with hc | hc
      · exact ih (n / 10) (Nat.div_lt_self (by omega) (by omega)) c hc
      · simp at hc
        subst hc
        have hk : ∀ k, k < 10 → isDigitC (Nat.digitChar k) = true := by decide
        exact hk (n % 10) (Nat.mod_lt _ (by omega))

theorem natDigits_ne_nil (n : Nat) : natDigits n ≠ [] := by
  rw [natDigits]
  split
  · simp
  · simp

/-- Decimal value of a digit character list. -/
def digitsValNat (cs : List Char) : Nat :=
  cs.foldl (fun acc c => acc * 10 + (c.toNat - 48)) 0

theorem foldl_natDigits (n : Nat) : ∀ acc : Nat,
    (natDigits n).foldl (fun a c => a * 10 + (c.toNat - 48)) acc =
      acc * 10 ^ (natDigits n).length + n := by
  induction n using Nat.strong_induction_on with
  | _ n ih =>
    intro acc
    have hd10 : ∀ k, k < 10 → (Nat.digitChar k).toNat - 48 = k := by decide
    by_cases h : n < 10
    · rw [natDigits, if_pos h]
      simp only [List.foldl_cons, List.foldl_nil, List.length_cons, List.length_nil,
        pow_one, zero_add]
      rw [hd10 n h]
    · rw [natDigits, if_neg h]
      rw [List.foldl_append]
      rw [ih (n / 10) (Nat.div_lt_self (by omega) (by omega)) acc]
      simp only [List.foldl_cons, List.foldl_nil, List.length_append, List.length_cons,
        List.length_nil, zero_add]
      rw [hd10 (n % 10) (Nat.mod_lt _ (by omega))]
      have key : (acc * 10 ^ (natDigits (n / 10)).length + n / 10) * 10 + n % 10 =
          acc * (10 ^ (natDigits (n / 10)).length * 10) + (10 * (n / 10) + n % 10) := by
        ring
      rw [key, Nat.div_add_mod, pow_succ]

theorem digitsValNat_natDigits (n : Nat) : digitsValNat (natDigits n) = n := by
  unfold digitsValNat
  rw [foldl_natDigits n 0]
  simp

/-- 0-based numeric value of an Excel column letter run (`A` = 0). -/
def lettersVal (cs : List Char) : Nat :=
  cs.foldl (fun acc c => acc * 26 + (c.toNat - 64)) 0 - 1

/-- Parse an A1-style rectangle `L1R1:L2R2` into 0-based column and 1-based
row bounds `(c1, r1, c2, r2)`; `none` when malformed. -/
def decodeA1 (s : String) : Option (Nat × Nat × Nat × Nat) :=
  let cs := s.data
  let l1 := cs.takeWhile isUpperAZ
  let m1 := cs.dropWhile isUpperAZ
  let d1 := m1.takeWhile isDigitC
  let m2 := m1.dropWhile isDigitC
  match m2 with
  | ':' :: m3 =>
    let l2 := m3.takeWhile isUpperAZ
    let m4 := m3.dropWhile isUpperAZ
    let d2 := m4.takeWhile isDigitC
    let m5 := m4.dropWhile isDigitC
    if l1 ≠ [] ∧ d1 ≠ [] ∧ l2 ≠ [] ∧ d2 ≠ [] ∧ m5 = [] then
      some (lettersVal l1, digitsValNat d1, lettersVal l2, digitsValNat d2)
    else none
  | _ => none

theorem takeWhile_append_of_all {α : Type _} {p : α → Bool} {xs ys : List α}
    (h : ∀ c ∈ xs, p c = true) :
    (xs ++ ys).takeWhile p = xs ++ ys.takeWhile p := by
  induction xs with
  | nil => simp
  | cons x xs ih =>
    simp [List.takeWhile_cons, h x (by simp), ih (fun c hc => h c (by simp [hc]))]

theorem dropWhile_append_of_all {α : Type _} {p : α → Bool} {xs ys : List α}
    (h : ∀ c ∈ xs, p c = true) :
    (xs ++ ys).dropWhile p = ys.dropWhile p := by
  induction xs with
  | nil => simp
  | cons x xs ih =>
    simp [List.dropWhile_cons, h x (by simp), ih (fun c hc => h c (by simp [hc]))]

theorem takeWhile_eq_nil_of_all {α : Type _} {p : α → Bool} {xs : List α}
    (h : ∀ c ∈ xs, p c = false) : xs.takeWhile p = [] := by
  cases xs with
  | nil => rfl
  | cons x xs => simp [List.takeWhile_cons, h x (by simp)]

theorem dropWhile_eq_self_of_all {α : Type _} {p : α → Bool} {xs : List α}
    (h : ∀ c ∈ xs, p c = false) : xs.dropWhile p = xs := by
  cases xs with
  | nil => rfl
  | cons x xs => simp [List.dropWhile_cons, h x (by simp)]

theorem takeWhile_eq_self_of_all {α : Type _} {p : α → Bool} {xs : List α}
    (h : ∀ c ∈ xs, p c = true) : xs.takeWhile p = xs := by
  induction xs with
  | nil => rfl
  | cons x xs ih =>
    simp [List.takeWhile_cons, h x (by simp), ih (fun c hc => h c (by simp [hc]))]

theorem dropWhile_eq_nil_of_all {α : Type _} {p : α → Bool} {xs : List α}
    (h : ∀ c ∈ xs, p c = true) : xs.dropWhile p = [] := by
  induction xs with
  | nil => rfl
  | cons x xs ih =>
    simp [List.dropWhile_cons, h x (by simp), ih (fun c hc => h c (by simp [hc]))]

/-- Evaluation of the decoder on a well-shaped range string. -/
theorem decodeA1_eval {L1 L2 : Char} {D1 D2 : List Char}
    (hL1 : isUpperAZ L1 = true) (hL2 : isUpperAZ L2 = true)
    (hD1n : D1 ≠ []) (hD1 : ∀ c ∈ D1, isDigitC c = true)
    (hD2n : D2 ≠ []) (hD2 : ∀ c ∈ D2, isDigitC c = true) :
    decodeA1 ⟨L1 :: (D1 ++ ':' :: L2 :: D2)⟩ =
      some (lettersVal [L1], digitsValNat D1, lettersVal [L2], digitsValNat D2) := by
  have hdig_not_up : ∀ c ∈ D1, isUpperAZ c = false :=
    fun c hc => not_upper_of_digit (hD1 c hc)
  have hdig_not_up2 : ∀ c ∈ D2, isUpperAZ c = false :=
    fun c hc => not_upper_of_digit (hD2 c hc)
  have hcolon_up : isUpperAZ ':' = false := by decide
  have hcolon_dig : isDigitC ':' = false := by decide
  have hL2dig : isDigitC L2 = false := by
    simp only [isUpperAZ, Bool.and_eq_true, decide_eq_true_eq] at hL2
    simp only [isDigitC, Bool.and_eq_false_iff, decide_eq_false_iff_not]
    right
    omega
  have e1 : (L1 :: (D1 ++ ':' :: L2 :: D2)).takeWhile isUpperAZ = [L1] := by
    cases hD : D1 with
    | nil => exact absurd hD hD1n
    | cons d ds =>
      have hdup : isUpperAZ d = false := hdig_not_up d (by rw [hD]; simp)
      simp [List.takeWhile_cons, hL1, hdup]
  have e2 : (L1 :: (D1 ++ ':' :: L2 :: D2)).dropWhile isUpperAZ =
      D1 ++ ':' :: L2 :: D2 := by
    cases hD : D1 with
    | nil => exact absurd hD hD1n
    | cons d ds =>
      have hdup : isUpperAZ d = false := hdig_not_up d (by rw [hD]; simp)
      simp [List.dropWhile_cons, hL1, hdup]
  have e3 : (D1 ++ ':' :: L2 :: D2).takeWhile isDigitC = D1 := by
    rw [takeWhile_append_of_all hD1]
    simp [List.takeWhile_cons, hcolon_dig]
  have e4 : (D1 ++ ':' :: L2 :: D2).dropWhile isDigitC = ':' :: L2 :: D2 := by
    rw [dropWhile_append_of_all hD1]
    simp [List.dropWhile_cons, hcolon_dig]
  have e5 : (L2 :: D2).takeWhile isUpperAZ = [L2] := by
    simp [List.takeWhile_cons, hL2, takeWhile_eq_nil_of_all hdig_not_up2]
  have e6 : (L2 :: D2).dropWhile isUpperAZ = D2 := by
    simp [List.dropWhile_cons, hL2, dropWhile_eq_self_of_all hdig_not_up2]
  have e7 : D2.takeWhile isDigitC = D2 := takeWhile_eq_self_of_all hD2
  have e8 : D2.dropWhile isDigitC = [] := dropWhile_eq_nil_of_all hD2
  unfold decodeA1
  simp only [e1, e2, e3, e4, e5, e6, e7, e8]
  simp [hD1n, hD2n]

theorem decodeA1_roundRange {i : Nat} (n : Nat) (h : i ≤ 25) :
    decodeA1 (roundRange i n) = some (i, 2, i, n + 1) := by
  have hL : isUpperAZ (Char.ofNat (65 + i)) = true := by
    have hb : ∀ j, j < 26 → isUpperAZ (Char.ofNat (65 + j)) = true := by decide
    exact hb i (by omega)
  have hlv : lettersVal [Char.ofNat (65 + i)] = i := by
    have hb : ∀ j, j < 26 → lettersVal [Char.ofNat (65 + j)] = j := by decide
    exact hb i (by omega)
  have hdata : roundRange i n =
      ⟨Char.ofNat (65 + i) :: (['2'] ++ ':' :: Char.ofNat (65 + i) :: natDigits (n + 1))⟩ := by
    apply String.ext
    show (colLetter i ++ "2:" ++ colLetter i ++ toString (n + 1)).data = _
    rw [String.data_append, String.data_append, String.data_append]
    rw [show (toString (n + 1)).data = natDigits (n + 1) from repr_data (n + 1)]
    rfl
  rw [hdata]
  rw [decodeA1_eval hL hL (by simp) (by decide) (natDigits_ne_nil _)
    (natDigits_all_digits _)]
  rw [hlv, digitsValNat_natDigits]
  have h2 : digitsValNat ['2'] = 2 := by decide
  rw [h2]

theorem decodeA1_honRange {k : Nat} (n : Nat) (h : k ≤ 25) :
    decodeA1 (honRange (k + 1) n) = some (0, 2, k, n + 1) := by
  have hL : isUpperAZ (Char.ofNat (65 + k)) = true := by
    have hb : ∀ j, j < 26 → isUpperAZ (Char.ofNat (65 + j)) = true := by decide
    exact hb k (by omega)
  have hlv : lettersVal [Char.ofNat (65 + k)] = k := by
    have hb : ∀ j, j < 26 → lettersVal [Char.ofNat (65 + j)] = j := by decide
    exact hb k (by omega)
  have hdata : honRange (k + 1) n =
      ⟨'A' :: (['2'] ++ ':' :: Char.ofNat (65 + k) :: natDigits (n + 1))⟩ := by
    apply String.ext
    show ("A2:" ++ colLetter (k + 1 - 1) ++ toString (n + 1)).data = _
    rw [String.data_append, String.data_append]
    rw [show (toString (n + 1)).data = natDigits (n + 1) from repr_data (n + 1)]
    simp only [Nat.add_sub_cancel]
    rfl
  rw [hdata]
  rw [decodeA1_eval (by decide) hL (by simp) (by decide) (natDigits_ne_nil _)
    (natDigits_all_digits _)]
  rw [hlv, digitsValNat_natDigits]
  have h2 : digitsValNat ['2'] = 2 := by decide
  have hA : lettersVal ['A'] = 0 := by decide
  rw [h2, hA]

/-- Excel `ISNUMBER(SEARCH(token, text))`: `SEARCH` is CASE-INSENSITIVE
(Excel's case-sensitive variant is `FIND`), so both sides are lowered;
numeric, date-typed and blank cells never contain the alphabetic
tokens. -/
def excelSearch (token : String) (v : Value) : Bool :=
  match v with
  | .str s => subStr (lowerStr token) (lowerStr s)
  | _ => false

/-- Excel `AND(MOD(cell,10)=0, NOT(ISBLANK(cell)))` on an age cell:
integers divisible by ten match; blank cells are excluded by the guard,
and text makes `MOD` error out (no highlight).  The pipeline's age
column holds only integers and blanks, so no other cell type occurs. -/
def excelRound (v : Value) : Bool :=
  match v with
  | .int n => decide (n % 10 = 0)
  | _ => false

/-- Whether the Excel cell at row `er`, column `c` lies inside an
A1-style range string. -/
def inRangeB (rangeStr : String) (er c : Nat) : Bool :=
  match decodeA1 rangeStr with
  | some (c1, r1, c2, r2) =>
    decide (c1 ≤ c) && decide (c ≤ c2) && decide (r1 ≤ er) && decide (er ≤ r2)
  | none => false

/-- The sheet cell at Excel row `er` (the bold header is row 1, data row
`i` is Excel row `i + 2`) and 0-based column `c`. -/
def sheetCell (s : Sheet) (er c : Nat) : Value := cellAt (s.rows.getD (er - 2) []) c

/-- Whether one conditional-format rule highlights the cell at Excel row
`er`, column `c`: the cell must lie in the rule's range; the round rule
tests the cell itself (relative reference `L2`), the honorary rule tests
the membership cell of the same row (column-absolute reference `$L2`). -/
def fmtHighlights (s : Sheet) (f : CondFmt) (er c : Nat) : Bool :=
  inRangeB f.range er c &&
  (match f.kind with
   | .roundAge _ => excelRound (sheetCell s er c)
   | .honorary tok mgIdx => excelSearch tok (sheetCell s er mgIdx))

def isHon (f : CondFmt) : Bool :=
  match f.kind with
  | .honorary _ _ => true
  | _ => false

def isRound (f : CondFmt) : Bool :=
  match f.kind with
  | .roundAge _ => true
  | _ => false

/-- Yellow honorary highlight of a sheet cell (any honorary rule fires;
all three rules use the same yellow format). -/
def yellowAt (s : Sheet) (er c : Nat) : Bool :=
  s.condFmts.any (fun f => isHon f && fmtHighlights s f er c)

/-- Green round-birthday highlight of a sheet cell. -/
def greenAt (s : Sheet) (er c : Nat) : Bool :=
  s.condFmts.any (fun f => isRound f && fmtHighlights s f er c)

/-- The membership-column index carried by the sheet's honorary rules
(rules of one sheet all share it). -/
def honIdx (s : Sheet) : Option Nat :=
  s.condFmts.findSome? (fun f =>
    match f.kind with
    | .honorary _ i => some i
    | _ => none)

theorem idxIn_lt {sc : List String} {c : String} (h : c ∈ sc) :
    idxIn sc c < sc.length := by
  obtain ⟨i, hi⟩ := findCol_mem h
  unfold idxIn
  rw [hi]
  exact findCol_lt_length hi

theorem idxIn_getD {sc : List String} {c : String} (h : c ∈ sc) :
    sc.getD (idxIn sc c) "" = c := by
  obtain ⟨i, hi⟩ := findCol_mem h
  unfold idxIn
  rw [hi]
  exact findCol_get hi

theorem mkMonthSheet_some {dfw : DF} {Y : Int} {m : Nat} {s : Sheet}
    (hs : mkMonthSheet dfw Y m = some s) :
    s.name = monatName m ∧
    s.header = sheetColsFor (monthFrame dfw m).cols Y
      (findMitgl (monthFrame dfw m).cols) (findCorr (monthFrame dfw m).cols) ∧
    s.rows = (monthFrame dfw m).rows.map
      (projRow (monthFrame dfw m).cols s.header) ∧
    s.condFmts = monthFmts s.header Y (findMitgl (monthFrame dfw m).cols)
      s.rows.length := by
  unfold mkMonthSheet at hs
  split at hs
  · exact absurd hs (by simp)
  · injection hs with h'
    subst h'
    refine ⟨rfl, rfl, ?_, ?_⟩
    · rfl
    · simp

theorem mkNoDateSheet_eq (dfn : DF) :
    (mkNoDateSheet dfn).name = "Ohne_Geburtsdatum" ∧
    (mkNoDateSheet dfn).header = noDateCols dfn.cols ∧
    (mkNoDateSheet dfn).rows = dfn.rows.map (projRow dfn.cols (noDateCols dfn.cols)) ∧
    (mkNoDateSheet dfn).condFmts =
      noDateFmts (noDateCols dfn.cols) (mkNoDateSheet dfn).rows.length := by
  refine ⟨rfl, rfl, rfl, ?_⟩
  show noDateFmts _ (dfn.rows.map _).length = _
  simp [mkNoDateSheet]

theorem mem_monthFmts {sc : List String} {Y : Int} {mitgl : Option String} {N : Nat}
    {f : CondFmt} (hf : f ∈ monthFmts sc Y mitgl N) :
    (f = ⟨roundRange (idxIn sc (alterName Y)) N, .roundAge (idxIn sc (alterName Y))⟩ ∧
      alterName Y ∈ sc) ∨
    (∃ mc t, mitgl = some mc ∧ mc ∈ sc ∧ t ∈ honTokens ∧
      f = ⟨honRange sc.length N, .honorary t (idxIn sc mc)⟩) := by
  unfold monthFmts at hf
  rcases List.mem_append.1 hf with hf | hf
  · left
    split at hf
    · rename_i hcon
      simp at hf
      exact ⟨hf, by simpa using hcon⟩
    · simp at hf
  · right
    cases hm : mitgl with
    | none => rw [hm] at hf; simp at hf
    | some mc =>
      rw [hm] at hf
      simp only [] at hf
      split at hf
      · rename_i hcon
        obtain ⟨t, ht, rfl⟩ := List.mem_map.1 hf
        exact ⟨mc, t, rfl, by simpa using hcon, ht, rfl⟩
      · simp at hf

theorem mem_noDateFmts {sc : List String} {N : Nat} {f : CondFmt}
    (hf : f ∈ noDateFmts sc N) :
    "Mitgliedschaft" ∈ sc ∧ ∃ t, t ∈ honTokens ∧
      f = ⟨honRange sc.length N, .honorary t (idxIn sc "Mitgliedschaft")⟩ := by
  unfold noDateFmts at hf
  split at hf
  · rename_i hcon
    obtain ⟨t, ht, rfl⟩ := List.mem_map.1 hf
    exact ⟨by simpa using hcon, t, ht, rfl⟩
  · simp at hf

/-- C10 — the conditional-format range strings are built by adding the
column index to `"A"`; for every emitted sheet (month or undated) with
at most 26 output columns, every generated range decodes as a
well-formed A1 rectangle spanning exactly data rows 2 through N+1: the
round-birthday range covers only the age column, the honorary range
covers columns A through the last output column. -/
theorem cf_ranges_wellformed :
    (∀ dfw : DF, ∀ Y : Int, ∀ m : Nat, ∀ s : Sheet,
      mkMonthSheet dfw Y m = some s → s.header.length ≤ 26 →
      ∀ f ∈ s.condFmts,
        (∀ i, f.kind = CFKind.roundAge i →
          i < s.header.length ∧
          decodeA1 f.range = some (i, 2, i, s.rows.length + 1)) ∧
        (∀ t j, f.kind = CFKind.honorary t j →
          j < s.header.length ∧
          decodeA1 f.range = some (0, 2, s.header.length - 1, s.rows.length + 1))) ∧
    (∀ dfn : DF, ∀ s : Sheet,
      mkNoDateSheet dfn = s → s.header.length ≤ 26 →
      ∀ f ∈ s.condFmts,
        (∀ i, f.kind = CFKind.roundAge i →
          i < s.header.length ∧
          decodeA1 f.range = some (i, 2, i, s.rows.length + 1)) ∧
        (∀ t j, f.kind = CFKind.honorary t j →
          j < s.header.length ∧
          decodeA1 f.range = some (0, 2, s.header.length - 1, s.rows.length + 1))) := by
  constructor
  · intro dfw Y m s hs hlen f hf
    obtain ⟨-, -, -, hfmts⟩ := mkMonthSheet_some hs
    rw [hfmts] at hf
    rcases mem_monthFmts hf with ⟨rfl, halt⟩ | ⟨mc, t, hm, hmem, ht, rfl⟩
    · constructor
      · intro i hi
        simp only [CFKind.roundAge.injEq] at hi
        subst hi
        have hlt : idxIn s.header (alterName Y) < s.header.length := idxIn_lt halt
        exact ⟨hlt, decodeA1_roundRange _ (by omega)⟩
      · intro t j hj
        simp at hj
    · constructor
      · intro i hi
        simp at hi
      · intro t' j hj
        simp only [CFKind.honorary.injEq] at hj
        obtain ⟨-, hj2⟩ := hj
        subst hj2
        have hlt : idxIn s.header mc < s.header.length := idxIn_lt hmem
        have hpos : 1 ≤ s.header.length := by
          cases hh : s.header with
          | nil => rw [hh] at hmem; simp at hmem
          | cons a l => simp [hh]
        refine ⟨hlt, ?_⟩
        have hre : s.header.length = (s.header.length - 1) + 1 := by omega
        rw [show honRange s.header.length s.rows.length =
          honRange ((s.header.length - 1) + 1) s.rows.length by rw [← hre]]
        exact decodeA1_honRange _ (by omega)
  · intro dfn s hs hlen f hf
    subst hs
    obtain ⟨-, hheader, -, hfmts⟩ := mkNoDateSheet_eq dfn
    rw [hfmts] at hf
    rw [hheader] at hlen ⊢
    rcases mem_noDateFmts hf with ⟨hmem, t, ht, rfl⟩
    constructor
    · intro i hi
      simp at hi
    · intro t' j hj
      simp only [CFKind.honorary.injEq] at hj
      obtain ⟨-, hj2⟩ := hj
      subst hj2
      have hlt : idxIn (noDateCols dfn.cols) "Mitgliedschaft" <
          (noDateCols dfn.cols).length := idxIn_lt hmem
      have hpos : 1 ≤ (noDateCols dfn.cols).length := by
        cases hh : noDateCols dfn.cols with
        | nil => rw [hh] at hmem; simp at hmem
        | cons a l => simp [hh]
      refine ⟨hlt, ?_⟩
      rw [show honRange (noDateCols dfn.cols).length (mkNoDateSheet dfn).rows.length =
        honRange (((noDateCols dfn.cols).length - 1) + 1)
          (mkNoDateSheet dfn).rows.length by congr 1; omega]
      exact decodeA1_honRange _ (by omega)

/-- A dated-group frame as `splitGeb` produces it (helper columns
present), used to instantiate the sheet-level theorems. -/
def exDFW : DF :=
  ⟨["Vorname", "Geburtsdatum", "Mitgliedschaft", "Monat", "Tag", "Alter 2026"],
   [[Value.str "Anna", Value.date 1990 5 1, Value.str "Ehrenmitglied",
     Value.int 5, Value.int 1, Value.int 36]]⟩

/-- Witness for C10 at a concrete month sheet. -/
theorem cf_ranges_wellformed_witness :
    ∀ f ∈ ((mkMonthSheet exDFW 2026 5).getD placeholderSheet).condFmts,
      (∀ i, f.kind = CFKind.roundAge i →
        i < ((mkMonthSheet exDFW 2026 5).getD placeholderSheet).header.length ∧
        decodeA1 f.range = some (i, 2, i,
          ((mkMonthSheet exDFW 2026 5).getD placeholderSheet).rows.length + 1)) ∧
      (∀ t j, f.kind = CFKind.honorary t j →
        j < ((mkMonthSheet exDFW 2026 5).getD placeholderSheet).header.length ∧
        decodeA1 f.range = some (0, 2,
          ((mkMonthSheet exDFW 2026 5).getD placeholderSheet).header.length - 1,
          ((mkMonthSheet exDFW 2026 5).getD placeholderSheet).rows.length + 1)) :=
  cf_ranges_wellformed.1 exDFW 2026 5
    ((mkMonthSheet exDFW 2026 5).getD placeholderSheet) (by decide) (by decide)

/-- C7 — on every month sheet the round-birthday rule marks a cell of
the age column exactly when that cell holds an integer divisible by 10
(so age 0 is marked, blanks and ages 9, 11, 21, … are not), and the rule
reaches no other column. -/
theorem round_highlight (dfw : DF) (Y : Int) (m : Nat) (s : Sheet)
    (hs : mkMonthSheet dfw Y m = some s) (hlen : s.header.length ≤ 26)
    (halt : alterName Y ∈ s.header) :
    ∀ i, i < s.rows.length →
      (greenAt s (i + 2) (idxIn s.header (alterName Y)) = true ↔
        ∃ n, sheetCell s (i + 2) (idxIn s.header (alterName Y)) = Value.int n ∧
          n % 10 = 0) ∧
      (∀ c, c < s.header.length → c ≠ idxIn s.header (alterName Y) →
        greenAt s (i + 2) c = false) := by
  obtain ⟨-, -, -, hfmts⟩ := mkMonthSheet_some hs
  have hailt : idxIn s.header (alterName Y) < s.header.length := idxIn_lt halt
  have hcon : s.header.contains (alterName Y) = true := by simpa using halt
  have hdec : decodeA1 (roundRange (idxIn s.header (alterName Y)) s.rows.length) =
      some (idxIn s.header (alterName Y), 2, idxIn s.header (alterName Y),
        s.rows.length + 1) := decodeA1_roundRange _ (by omega)
  have hsplit : s.condFmts =
      ⟨roundRange (idxIn s.header (alterName Y)) s.rows.length,
        CFKind.roundAge (idxIn s.header (alterName Y))⟩ ::
        (match findMitgl (monthFrame dfw m).cols with
         | some mc =>
           if s.header.contains mc then
             honTokens.map (fun t =>
               ⟨honRange s.header.length s.rows.length,
                CFKind.honorary t (idxIn s.header mc)⟩)
           else []
         | none => []) := by
    rw [hfmts]
    unfold monthFmts
    rw [if_pos hcon]
    rfl
  have hrest : ∀ f ∈ (match findMitgl (monthFrame dfw m).cols with
      | some mc =>
        if s.header.contains mc then
          honTokens.map (fun t =>
            (⟨honRange s.header.length s.rows.length,
              CFKind.honorary t (idxIn s.header mc)⟩ : CondFmt))
        else []
      | none => ([] : List CondFmt)), isRound f = false := by
    intro f hfm
    cases hm : findMitgl (monthFrame dfw m).cols with
    | none => rw [hm] at hfm; simp at hfm
    | some mc =>
      rw [hm] at hfm
      simp only [] at hfm
      split at hfm
      · obtain ⟨t, -, rfl⟩ := List.mem_map.1 hfm
        rfl
      · simp at hfm
  intro i hi
  have hgreen : ∀ c, greenAt s (i + 2) c =
      (inRangeB (roundRange (idxIn s.header (alterName Y)) s.rows.length) (i + 2) c &&
        excelRound (sheetCell s (i + 2) c)) := by
    intro c
    unfold greenAt
    rw [hsplit, List.any_cons]
    have h2 : (List.any (match findMitgl (monthFrame dfw m).cols with
        | some mc =>
          if s.header.contains mc then
            honTokens.map (fun t =>
              (⟨honRange s.header.length s.rows.length,
                CFKind.honorary t (idxIn s.header mc)⟩ : CondFmt))
          else []
        | none => ([] : List CondFmt))
        fun f => isRound f && fmtHighlights s f (i + 2) c) = false := by
      rw [List.any_eq_false]
      intro f hfm
      rw [hrest f hfm]
      simp
    rw [h2]
    simp only [Bool.or_false]
    show (true && (inRangeB (roundRange (idxIn s.header (alterName Y)) s.rows.length)
      (i + 2) c && excelRound (sheetCell s (i + 2) c))) = _
    rw [Bool.true_and]
  constructor
  · rw [hgreen (idxIn s.header (alterName Y))]
    have hir : inRangeB (roundRange (idxIn s.header (alterName Y)) s.rows.length)
        (i + 2) (idxIn s.header (alterName Y)) = true := by
      unfold inRangeB
      rw [hdec]
      simp only [Bool.and_eq_true, decide_eq_true_eq]
      omega
    rw [hir, Bool.true_and]
    unfold excelRound
    cases hc : sheetCell s (i + 2) (idxIn s.header (alterName Y)) with
    | int n => simp
    | null => simp
    | str t => simp
    | date y mm d => simp
  · intro c hclen hcne
    rw [hgreen c]
    have hir : inRangeB (roundRange (idxIn s.header (alterName Y)) s.rows.length)
        (i + 2) c = false := by
      unfold inRangeB
      rw [hdec]
      simp only [Bool.and_eq_false_iff, decide_eq_false_iff_not]
      left
      left
      omega
    rw [hir, Bool.false_and]

theorem findHon_monthFmts {sc : List String} {Y : Int} {mitgl : Option String}
    {N : Nat} {mg : Nat}
    (h : (monthFmts sc Y mitgl N).findSome? (fun f =>
      match f.kind with
      | CFKind.honorary _ i => some i
      | _ => none) = some mg) :
    ∃ mc, mitgl = some mc ∧ mc ∈ sc ∧ mg = idxIn sc mc := by
  cases mitgl with
  | none =>
    exfalso
    unfold monthFmts at h
    simp only [] at h
    split at h <;> simp [List.findSome?_cons] at h
  | some mc =>
    unfold monthFmts at h
    simp only [] at h
    by_cases hcon : sc.contains mc = true
    · refine ⟨mc, rfl, by simpa using hcon, ?_⟩
      rw [if_pos hcon] at h
      split at h <;> simp [List.findSome?_cons, honTokens] at h <;> omega
    · rw [if_neg hcon] at h
      split at h <;> simp [List.findSome?_cons] at h

theorem findHon_noDateFmts {sc : List String} {N : Nat} {mg : Nat}
    (h : (noDateFmts sc N).findSome? (fun f =>
      match f.kind with
      | CFKind.honorary _ i => some i
      | _ => none) = some mg) :
    "Mitgliedschaft" ∈ sc ∧ mg = idxIn sc "Mitgliedschaft" := by
  unfold noDateFmts at h
  split at h
  · rename_i hcon
    refine ⟨by simpa using hcon, ?_⟩
    simp [List.findSome?_cons, honTokens] at h
    omega
  · simp at h

theorem any_map2 {α β : Type _} (f : α → β) (p : β → Bool) (l : List α) :
    (l.map f).any p = l.any (fun a => p (f a)) := by
  induction l with
  | nil => rfl
  | cons x xs ih => simp [List.any_cons, ih]

theorem any_congr2 {α : Type _} {p q : α → Bool} {l : List α}
    (h : ∀ a ∈ l, p a = q a) : l.any p = l.any q := by
  induction l with
  | nil => rfl
  | cons x xs ih =>
    simp [List.any_cons, h x (by simp), ih (fun a ha => h a (by simp [ha]))]

theorem yellowAt_fmts {s : Sheet} {pre : List CondFmt} {mg N len : Nat}
    (hfmts : s.condFmts = pre ++ honTokens.map (fun t =>
      ⟨honRange len N, CFKind.honorary t mg⟩))
    (hpre : ∀ f ∈ pre, isHon f = false)
    (hlen1 : 1 ≤ len) (hlen26 : len ≤ 26)
    {er c : Nat} (hc : c < len) (her2 : 2 ≤ er) (herN : er ≤ N + 1) :
    yellowAt s er c =
      honTokens.any (fun t => excelSearch t (sheetCell s er mg)) := by
  have hdec : decodeA1 (honRange len N) = some (0, 2, len - 1, N + 1) := by
    rw [show honRange len N = honRange ((len - 1) + 1) N by congr 1; omega]
    exact decodeA1_honRange _ (by omega)
  have hin : inRangeB (honRange len N) er c = true := by
    unfold inRangeB
    rw [hdec]
    simp only [Bool.and_eq_true, decide_eq_true_eq]
    omega
  unfold yellowAt
  rw [hfmts, List.any_append]
  have h1 : pre.any (fun f => isHon f && fmtHighlights s f er c) = false := by
    rw [List.any_eq_false]
    intro f hf
    rw [hpre f hf]
    simp
  rw [h1]
  simp only [Bool.false_or]
  rw [any_map2]
  refine any_congr2 ?_
  intro t _
  show (true && (inRangeB (honRange len N) er c &&
    excelSearch t (sheetCell s er mg))) = excelSearch t (sheetCell s er mg)
  rw [hin]
  simp

/-- C1 (amended) — on every month sheet, and on the undated sheet, with a
membership column, the honorary rules highlight a cell of data row `i`
in EVERY output column exactly when the membership cell's text contains
one of the three tokens CASE-INSENSITIVELY (Excel `SEARCH` semantics:
the code's formula is `ISNUMBER(SEARCH(...))`, and Excel's `SEARCH` is
not case sensitive, so lowercase `"ehrenmitglied"` does trigger the
highlight). -/
theorem honorary_highlight :
    (∀ dfw : DF, ∀ Y : Int, ∀ m : Nat, ∀ s : Sheet, ∀ mg : Nat,
      mkMonthSheet dfw Y m = some s → honIdx s = some mg →
      s.header.length ≤ 26 →
      ((∃ mc, mc ∈ mitglKandidaten ∧ s.header.getD mg "" = mc) ∧
       ∀ i, i < s.rows.length → ∀ c, c < s.header.length →
         (yellowAt s (i + 2) c = true ↔
           honTokens.any (fun t => excelSearch t (sheetCell s (i + 2) mg)) = true))) ∧
    (∀ dfn : DF, ∀ s : Sheet, ∀ mg : Nat,
      mkNoDateSheet dfn = s → honIdx s = some mg → s.header.length ≤ 26 →
      (s.header.getD mg "" = "Mitgliedschaft" ∧
       ∀ i, i < s.rows.length → ∀ c, c < s.header.length →
         (yellowAt s (i + 2) c = true ↔
           honTokens.any (fun t => excelSearch t (sheetCell s (i + 2) mg)) = true))) := by
  constructor
  · intro dfw Y m s mg hs hmg hlen
    obtain ⟨-, -, -, hfmts⟩ := mkMonthSheet_some hs
    have hmg' : (monthFmts s.header Y (findMitgl (monthFrame dfw m).cols)
        s.rows.length).findSome? (fun f =>
          match f.kind with
          | CFKind.honorary _ i => some i
          | _ => none) = some mg := by
      unfold honIdx at hmg
      rw [hfmts] at hmg
      exact hmg
    obtain ⟨mc, hm, hmem, rfl⟩ := findHon_monthFmts hmg'
    have hker : mc ∈ mitglKandidaten := by
      unfold findMitgl at hm
      exact List.mem_of_find?_eq_some hm
    refine ⟨⟨mc, hker, idxIn_getD hmem⟩, ?_⟩
    intro i hi c hc
    have hconmc : s.header.contains mc = true := by simpa using hmem
    have hfsplit : s.condFmts =
        (if s.header.contains (alterName Y) then
          [⟨roundRange (idxIn s.header (alterName Y)) s.rows.length,
            CFKind.roundAge (idxIn s.header (alterName Y))⟩]
         else []) ++ honTokens.map (fun t =>
          ⟨honRange s.header.length s.rows.length,
           CFKind.honorary t (idxIn s.header mc)⟩) := by
      rw [hfmts]
      unfold monthFmts
      rw [hm]
      simp only []
      rw [if_pos hconmc]
    have hpre : ∀ f ∈ (if s.header.contains (alterName Y) then
        [(⟨roundRange (idxIn s.header (alterName Y)) s.rows.length,
          CFKind.roundAge (idxIn s.header (alterName Y))⟩ : CondFmt)]
        else []), isHon f = false := by
      intro f hf
      split at hf
      · simp at hf
        subst hf
        rfl
      · simp at hf
    have hlen1 : 1 ≤ s.header.length := by
      cases hh : s.header with
      | nil => rw [hh] at hmem; simp at hmem
      | cons a l => simp [hh]
    rw [yellowAt_fmts hfsplit hpre hlen1 hlen hc (by omega) (by omega)]
  · intro dfn s mg hs hmg hlen
    subst hs
    obtain ⟨-, hheader, -, hfmts⟩ := mkNoDateSheet_eq dfn
    have hmg' : (noDateFmts (noDateCols dfn.cols)
        (mkNoDateSheet dfn).rows.length).findSome? (fun f =>
          match f.kind with
          | CFKind.honorary _ i => some i
          | _ => none) = some mg := by
      unfold honIdx at hmg
      rw [hfmts] at hmg
      exact hmg
    obtain ⟨hmem, rfl⟩ := findHon_noDateFmts hmg'
    have hconmc : (noDateCols dfn.cols).contains "Mitgliedschaft" = true := by
      simpa using hmem
    refine ⟨?_, ?_⟩
    · rw [hheader]
      exact idxIn_getD hmem
    · intro i hi c hc
      rw [hheader] at hc
      have hfsplit : (mkNoDateSheet dfn).condFmts =
          ([] : List CondFmt) ++ honTokens.map (fun t =>
            ⟨honRange (noDateCols dfn.cols).length (mkNoDateSheet dfn).rows.length,
             CFKind.honorary t (idxIn (noDateCols dfn.cols) "Mitgliedschaft")⟩) := by
        rw [hfmts]
        unfold noDateFmts
        rw [if_pos hconmc]
        simp
      have hlen1 : 1 ≤ (noDateCols dfn.cols).length := by
        cases hh : noDateCols dfn.cols with
        | nil => rw [hh] at hmem; simp at hmem
        | cons a l => simp [hh]
      rw [hheader] at hlen
      rw [yellowAt_fmts hfsplit (by intro f hf; simp at hf) hlen1 hlen hc
        (by omega) (by omega)]

/-- A dated-group frame whose membership cell is the lowercase
`"ehrenmitglied"` (no token occurs as a case-sensitive substring). -/
def exDFWlc : DF :=
  ⟨["Vorname", "Geburtsdatum", "Mitgliedschaft", "Monat", "Tag"],
   [[Value.str "Anna", Value.date 1990 5 1, Value.str "ehrenmitglied",
     Value.int 5, Value.int 1]]⟩

/-- Counterexample to C1 as stated: in the Mai sheet built from
`exDFWlc`, the first data row IS highlighted by the honorary rules
(Excel `SEARCH` is case-insensitive) although no honorary token occurs
in the membership text `"ehrenmitglied"` as a case-sensitive substring
(python `in`).  So "case-sensitive" and "lowercase does not trigger" are
wrong about the code. -/
theorem honorary_case_counterexample :
    yellowAt ((mkMonthSheet exDFWlc 2026 5).getD placeholderSheet) 2 0 = true ∧
    honTokens.any (fun t => subStr t "ehrenmitglied") = false := by
  constructor
  · decide
  · decide

/-- Witness for C1 (amended) at the concrete sheet of `exDFWlc`
(membership column lands at sheet column 2). -/
theorem honorary_highlight_witness :
    ((∃ mc, mc ∈ mitglKandidaten ∧
      ((mkMonthSheet exDFWlc 2026 5).getD placeholderSheet).header.getD 2 "" = mc) ∧
     ∀ i, i < ((mkMonthSheet exDFWlc 2026 5).getD placeholderSheet).rows.length →
       ∀ c, c < ((mkMonthSheet exDFWlc 2026 5).getD placeholderSheet).header.length →
       (yellowAt ((mkMonthSheet exDFWlc 2026 5).getD placeholderSheet) (i + 2) c = true ↔
         honTokens.any (fun t => excelSearch t
           (sheetCell ((mkMonthSheet exDFWlc 2026 5).getD placeholderSheet) (i + 2) 2))
           = true)) :=
  honorary_highlight.1 exDFWlc 2026 5
    ((mkMonthSheet exDFWlc 2026 5).getD placeholderSheet) 2
    (by decide) (by decide) (by decide)

/-- Witness for C7 at the concrete sheet of `exDFW` (age column lands at
sheet column 2, the row's age is 36). -/
theorem round_highlight_witness :
    (greenAt ((mkMonthSheet exDFW 2026 5).getD placeholderSheet) (0 + 2)
        (idxIn ((mkMonthSheet exDFW 2026 5).getD placeholderSheet).header
          (alterName 2026)) = true ↔
      ∃ n, sheetCell ((mkMonthSheet exDFW 2026 5).getD placeholderSheet) (0 + 2)
        (idxIn ((mkMonthSheet exDFW 2026 5).getD placeholderSheet).header
          (alterName 2026)) = Value.int n ∧ n % 10 = 0) ∧
    (∀ c, c < ((mkMonthSheet exDFW 2026 5).getD placeholderSheet).header.length →
      c ≠ idxIn ((mkMonthSheet exDFW 2026 5).getD placeholderSheet).header
        (alterName 2026) →
      greenAt ((mkMonthSheet exDFW 2026 5).getD placeholderSheet) (0 + 2) c = false) :=
  round_highlight exDFW 2026 5 ((mkMonthSheet exDFW 2026 5).getD placeholderSheet)
    (by decide) (by decide) (by decide) 0 (by decide)

theorem optIntLe_total (a b : Option Int) :
    optIntLe a b = true ∨ optIntLe b a = true := by
  cases a <;> cases b <;> simp [optIntLe] <;> omega

theorem optIntLe_trans (a b c : Option Int) :
    optIntLe a b = true → optIntLe b c = true → optIntLe a c = true := by
  cases a <;> cases b <;> cases c <;> simp [optIntLe] <;> omega

/-- The month sheet built from an already-sorted bucket: the part of
app.py lines 101–220 after the `sort_values("Tag")` call (display date
column, column selection, projection, conditional formats). -/
def monthSheetOf (dfw : DF) (Y : Int) (m : Nat) (sorted : List (List Value)) : Sheet :=
  let dfm : DF := ⟨dfw.cols, sorted⟩
  let dfm1 := match findCol "Geburtsdatum" dfm.cols with
    | some gi =>
      dfm.setColFrom "Geburtsdatum (TT.MM.JJJJ)" (fun r => displayVal (cellAt r gi))
    | none => dfm
  let sc := sheetColsFor dfm1.cols Y (findMitgl dfm1.cols) (findCorr dfm1.cols)
  let exRows := dfm1.rows.map (projRow dfm1.cols sc)
  ⟨monatName m, sc, exRows, monthFmts sc Y (findMitgl dfm1.cols) exRows.length⟩

/-- `df_monat.sort_values("Tag")` (app.py line 109) by its documented
contract: some day-ascending permutation of the bucket (missing keys
last); no sort without a `Tag` column. -/
def sortTagR (dfw : DF) (rows out : List (List Value)) : Prop :=
  match findCol "Tag" dfw.cols with
  | some ti => SortedBy (fun r1 r2 =>
      optIntLe (intKey (cellAt r1 ti)) (intKey (cellAt r2 ti))) rows out
  | none => out = rows

/-- The month sheets the program may emit for month `m`: the default
`kind="quicksort"` of `sort_values` fixes no tie order, so any sheet
built from any permitted sort output is a possible outcome. -/
def MkMonthSheetR (dfw : DF) (Y : Int) (m : Nat) (s : Sheet) : Prop :=
  (bucketRows dfw m).isEmpty = false ∧
  ∃ sorted, sortTagR dfw (bucketRows dfw m) sorted ∧
    s = monthSheetOf dfw Y m sorted

/-- The executable builder (stable tie order) is one permitted outcome
of `MkMonthSheetR`. -/
theorem mkMonthSheet_sat {dfw : DF} {Y : Int} {m : Nat} {s : Sheet}
    (h : mkMonthSheet dfw Y m = some s) : MkMonthSheetR dfw Y m s := by
  unfold mkMonthSheet at h
  cases hbe : (bucketRows dfw m).isEmpty with
  | true =>
    rw [hbe] at h
    simp at h
  | false =>
    rw [hbe] at h
    rw [if_neg (by simp)] at h
    refine ⟨hbe, sortTag dfw (bucketRows dfw m), ?_, ?_⟩
    · unfold sortTagR sortTag
      cases hti : findCol "Tag" dfw.cols with
      | some ti =>
        exact ⟨sortValues_perm _ _,
          @sortValues_pairwise _
            (fun r1 r2 => optIntLe (intKey (cellAt r1 ti)) (intKey (cellAt r2 ti)))
            (fun a b => optIntLe_total _ _) (fun a b c => optIntLe_trans _ _ _)
            (bucketRows dfw m)⟩
      | none => rfl
    · exact (Option.some.inj h).symm

/-- C3 (amended) — every month sheet the program may emit lists the
image of SOME day-ascending permutation of the month bucket (missing
day keys last, no row lost or duplicated): the ascending day order is
guaranteed, the relative order of rows with equal day is NOT —
`sort_values` runs with the default `kind="quicksort"`, which pandas
does not document as stable. -/
theorem month_sheet_day_order (dfw : DF) (Y : Int) (m : Nat) (s : Sheet) (ti : Nat)
    (hti : findCol "Tag" dfw.cols = some ti)
    (hs : MkMonthSheetR dfw Y m s) :
    ∃ sorted : List (List Value), sorted.Perm (bucketRows dfw m) ∧
      sorted.Pairwise (fun r1 r2 =>
        optIntLe (intKey (cellAt r1 ti)) (intKey (cellAt r2 ti)) = true) ∧
      ∃ fr : List Value → List Value, s.rows = sorted.map fr := by
  obtain ⟨-, sorted, hsort, rfl⟩ := hs
  unfold sortTagR at hsort
  rw [hti] at hsort
  refine ⟨sorted, hsort.1, hsort.2, ?_⟩
  unfold monthSheetOf
  cases hg : findCol "Geburtsdatum" dfw.cols with
  | some gi =>
    simp only []
    rw [hg]
    simp only [DF.setColFrom]
    rw [List.map_map]
    exact ⟨_, rfl⟩
  | none =>
    simp only []
    rw [hg]
    exact ⟨_, rfl⟩

/-- A month-5 bucket with two rows tied on `Tag` (both day 7). -/
def exTie : DF :=
  ⟨["Vorname", "Geburtsdatum", "Monat", "Tag"],
   [[Value.str "Anna", Value.date 1990 5 7, Value.int 5, Value.int 7],
    [Value.str "Bert", Value.date 1980 5 7, Value.int 5, Value.int 7]]⟩

/-- The tied bucket of `exTie` in swapped order. -/
def exTieSwap : List (List Value) :=
  [[Value.str "Bert", Value.date 1980 5 7, Value.int 5, Value.int 7],
   [Value.str "Anna", Value.date 1990 5 7, Value.int 5, Value.int 7]]

/-- Counterexample to the original C3: the bucket of `exTie` holds the
equal-day rows in the order Anna, Bert, yet the sheet built from the
swapped sort output — permitted by `sort_values`' contract, since both
rows carry day 7 — lists Bert before Anna: rows with equal day need NOT
keep their relative bucket order. -/
theorem month_sheet_tie_counterexample :
    MkMonthSheetR exTie 2026 5 (monthSheetOf exTie 2026 5 exTieSwap) ∧
    (∀ r ∈ bucketRows exTie 5, cellAt r 3 = Value.int 7) ∧
    (bucketRows exTie 5).map (fun r => cellAt r 0) =
      [Value.str "Anna", Value.str "Bert"] ∧
    (monthSheetOf exTie 2026 5 exTieSwap).rows.map (fun r => cellAt r 0) =
      [Value.str "Bert", Value.str "Anna"] := by
  refine ⟨⟨by decide, exTieSwap, ?_, rfl⟩, by decide, by decide, by decide⟩
  unfold sortTagR
  rw [show findCol "Tag" exTie.cols = some 3 from by decide]
  refine ⟨?_, by decide⟩
  show List.Perm exTieSwap (bucketRows exTie 5)
  have hb : bucketRows exTie 5 =
      [[Value.str "Anna", Value.date 1990 5 7, Value.int 5, Value.int 7],
       [Value.str "Bert", Value.date 1980 5 7, Value.int 5, Value.int 7]] := by decide
  rw [hb]
  exact List.Perm.swap _ _ _

/-- Witness for C3 (amended) at the executable sheet of `exDFW` (its
`Tag` column is at index 4). -/
theorem month_sheet_day_order_witness :
    ∃ sorted : List (List Value), sorted.Perm (bucketRows exDFW 5) ∧
      sorted.Pairwise (fun r1 r2 =>
        optIntLe (intKey (cellAt r1 4)) (intKey (cellAt r2 4)) = true) ∧
      ∃ fr : List Value → List Value,
        ((mkMonthSheet exDFW 2026 5).getD placeholderSheet).rows = sorted.map fr :=
  month_sheet_day_order exDFW 2026 5
    ((mkMonthSheet exDFW 2026 5).getD placeholderSheet) 4
    (by decide) (mkMonthSheet_sat (by decide))

theorem mem_setColFrom_self (df : DF) (c : String) (g : List Value → Value) :
    c ∈ (df.setColFrom c g).cols := by
  unfold DF.setColFrom
  simp only []
  split
  · rename_i h
    exact findCol_isSome_iff.1 h
  · exact List.mem_append_right _ (by simp)

theorem mem_setColFrom_of_mem {df : DF} {c c' : String} (h : c ∈ df.cols)
    (g : List Value → Value) : c ∈ (df.setColFrom c' g).cols := by
  unfold DF.setColFrom
  simp only []
  split
  · exact h
  · exact List.mem_append_left _ h

theorem count_flatMap_zero {α : Type _} [DecidableEq α] (p : Nat → α → Bool)
    (l : List α) (a : α) :
    ∀ ms : List Nat, (∀ m ∈ ms, p m a = false) →
      (ms.flatMap (fun m => l.filter (p m))).count a = 0 := by
  intro ms
  induction ms with
  | nil => simp
  | cons m ms ih =>
    intro h
    rw [List.flatMap_cons, List.count_append]
    have h1 : (l.filter (p m)).count a = 0 := by
      rw [List.count_eq_zero]
      intro hmem
      have hpm := List.of_mem_filter hmem
      rw [h m (by simp)] at hpm
      exact Bool.noConfusion hpm
    rw [h1, ih (fun m' hm' => h m' (by simp [hm']))]

theorem count_flatMap_filter {α : Type _} [DecidableEq α] (p : Nat → α → Bool)
    (l : List α) (a : α) :
    ∀ ms : List Nat, ms.Nodup → ∀ m0, m0 ∈ ms → p m0 a = true →
      (∀ m' ∈ ms, p m' a = true → m' = m0) →
      (ms.flatMap (fun m => l.filter (p m))).count a = l.count a := by
  intro ms
  induction ms with
  | nil =>
    intro _ m0 h
    simp at h
  | cons m ms ih =>
    intro hnd m0 hm0 hp hunique
    have hnd' : ms.Nodup := hnd.of_cons
    have hmnotin : m ∉ ms := by
      rcases hnd with - | ⟨hm, -⟩
      intro hc
      exact (hm m hc) rfl
    rw [List.flatMap_cons, List.count_append]
    by_cases hmm : m = m0
    · subst hmm
      rw [List.count_filter hp]
      have hrest : (ms.flatMap (fun m' => l.filter (p m'))).count a = 0 := by
        apply count_flatMap_zero
        intro m' hm'
        cases hq : p m' a with
        | false => rfl
        | true =>
          have : m' = m := hunique m' (by simp [hm']) hq
          exact absurd (this ▸ hm') hmnotin
      rw [hrest]
      omega
    · have hm0' : m0 ∈ ms := by
        rcases List.mem_cons.1 hm0 with h | h
        · exact absurd h.symm hmm
        · exact h
      have hpm : p m a = false := by
        cases hq : p m a with
        | false => rfl
        | true => exact absurd (hunique m (by simp) hq) hmm
      have h1 : (l.filter (p m)).count a = 0 := by
        rw [List.count_eq_zero]
        intro hmem
        have := List.of_mem_filter hmem
        rw [hpm] at this
        exact Bool.noConfusion this
      rw [h1, ih hnd' m0 hm0' hp
        (fun m' hm' hq => hunique m' (by simp [hm']) hq)]
      omega

theorem flatMap_filter_perm {α : Type _} [DecidableEq α] (p : Nat → α → Bool)
    (l : List α) (ms : List Nat) (hnd : ms.Nodup)
    (hcov : ∀ x ∈ l, ∃ m0, m0 ∈ ms ∧ p m0 x = true ∧
      (∀ m' ∈ ms, p m' x = true → m' = m0)) :
    (ms.flatMap (fun m => l.filter (p m))).Perm l := by
  rw [List.perm_iff_count]
  intro a
  by_cases ha : a ∈ l
  · obtain ⟨m0, hm0, hp, hu⟩ := hcov a ha
    exact count_flatMap_filter p l a ms hnd m0 hm0 hp hu
  · rw [List.count_eq_zero.2 ha, List.count_eq_zero]
    intro hmem
    obtain ⟨m, -, hmem2⟩ := List.mem_flatMap.1 hmem
    exact ha (List.mem_of_mem_filter hmem2)

theorem splitGeb_some {df : DF} {gi : Nat}
    (hgi : findCol "Geburtsdatum" df.cols = some gi) :
    (splitGeb df).2 =
      ⟨df.cols, df.rows.filter (fun r => cellAt r gi == Value.null)⟩ ∧
    (splitGeb df).1 =
      ((⟨df.cols, df.rows.filter (fun r => !(cellAt r gi == Value.null))⟩ : DF).setColFrom
        "Monat" (fun r => monthVal (cellAt r gi))).setColFrom
        "Tag" (fun r => dayVal (cellAt r gi)) := by
  unfold splitGeb
  rw [hgi]
  exact ⟨rfl, rfl⟩

theorem splitGeb_monthCell {df : DF} {gi : Nat} (hwf : df.WF)
    (hgi : findCol "Geburtsdatum" df.cols = some gi) :
    ∃ mi, findCol "Monat" (splitGeb df).1.cols = some mi ∧
      ∀ r ∈ (splitGeb df).1.rows, ∃ r0, r0 ∈ df.rows ∧
        (cellAt r0 gi == Value.null) = false ∧
        cellAt r mi = monthVal (cellAt r0 gi) := by
  obtain ⟨-, hw⟩ := splitGeb_some hgi
  rw [hw]
  have hwf1 : (DF.mk df.cols
      (df.rows.filter (fun r => !(cellAt r gi == Value.null)))).WF := by
    intro r hr
    exact hwf r (List.mem_of_mem_filter hr)
  have hwfw1 : ((DF.mk df.cols
      (df.rows.filter (fun r => !(cellAt r gi == Value.null)))).setColFrom
        "Monat" (fun r => monthVal (cellAt r gi))).WF := WF_setColFrom hwf1
  have hmon : "Monat" ∈ (((DF.mk df.cols
      (df.rows.filter (fun r => !(cellAt r gi == Value.null)))).setColFrom
        "Monat" (fun r => monthVal (cellAt r gi))).setColFrom
        "Tag" (fun r => dayVal (cellAt r gi))).cols :=
    mem_setColFrom_of_mem (mem_setColFrom_self _ "Monat" _) _
  obtain ⟨mi, hmi⟩ := findCol_mem hmon
  refine ⟨mi, hmi, ?_⟩
  intro r hr
  have hr' : r ∈ ((DF.mk df.cols
      (df.rows.filter (fun r => !(cellAt r gi == Value.null)))).setColFrom
        "Monat" (fun r => monthVal (cellAt r gi))).rows.map
      (setRow (findCol "Tag" ((DF.mk df.cols
        (df.rows.filter (fun r => !(cellAt r gi == Value.null)))).setColFrom
          "Monat" (fun r => monthVal (cellAt r gi))).cols)
        (fun r => dayVal (cellAt r gi))) := hr
  obtain ⟨r1, hr1, rfl⟩ := List.mem_map.1 hr'
  have hr1' : r1 ∈ ((df.rows.filter (fun r => !(cellAt r gi == Value.null))).map
      (setRow (findCol "Monat" df.cols) (fun r => monthVal (cellAt r gi)))) := hr1
  obtain ⟨r0, hr0, rfl⟩ := List.mem_map.1 hr1'
  refine ⟨r0, List.mem_of_mem_filter hr0, ?_, ?_⟩
  · have := List.of_mem_filter hr0
    simpa using this
  · have hlen0 : r0.length = df.cols.length := hwf r0 (List.mem_of_mem_filter hr0)
    have hcell1 : cellN ((DF.mk df.cols
        (df.rows.filter (fun r => !(cellAt r gi == Value.null)))).setColFrom
          "Monat" (fun r => monthVal (cellAt r gi))).cols
        (setRow (findCol "Monat" df.cols) (fun r => monthVal (cellAt r gi)) r0)
        "Monat" = monthVal (cellAt r0 gi) := cellN_setRow_self hlen0
    have hlen1 : (setRow (findCol "Monat" df.cols)
        (fun r => monthVal (cellAt r gi)) r0).length =
        ((DF.mk df.cols
          (df.rows.filter (fun r => !(cellAt r gi == Value.null)))).setColFrom
            "Monat" (fun r => monthVal (cellAt r gi))).cols.length :=
      hwfw1 _ hr1
    have hcell2 : cellN (((DF.mk df.cols
        (df.rows.filter (fun r => !(cellAt r gi == Value.null)))).setColFrom
          "Monat" (fun r => monthVal (cellAt r gi))).setColFrom
          "Tag" (fun r => dayVal (cellAt r gi))).cols
        (setRow (findCol "Tag" ((DF.mk df.cols
          (df.rows.filter (fun r => !(cellAt r gi == Value.null)))).setColFrom
            "Monat" (fun r => monthVal (cellAt r gi))).cols)
          (fun r => dayVal (cellAt r gi))
          (setRow (findCol "Monat" df.cols) (fun r => monthVal (cellAt r gi)) r0))
        "Monat" = monthVal (cellAt r0 gi) := by
      rw [cellN_setRow_other hlen1 (by decide)]
      exact hcell1
    have hce := cellN_eq (((DF.mk df.cols
        (df.rows.filter (fun r => !(cellAt r gi == Value.null)))).setColFrom
          "Monat" (fun r => monthVal (cellAt r gi))).setColFrom
          "Tag" (fun r => dayVal (cellAt r gi))).cols
        (setRow (findCol "Tag" ((DF.mk df.cols
          (df.rows.filter (fun r => !(cellAt r gi == Value.null)))).setColFrom
            "Monat" (fun r => monthVal (cellAt r gi))).cols)
          (fun r => dayVal (cellAt r gi))
          (setRow (findCol "Monat" df.cols) (fun r => monthVal (cellAt r gi)) r0))
        "Monat"
    rw [hmi] at hce
    simp only [] at hce
    rw [← hce]
    exact hcell2

/-- C2 — partition of the input rows by the report builder (app.py lines
66–74, 101–104).  When the input HAS a `Geburtstagsdatum` column the split is
lossless: the undated group holds exactly the rows whose birth-date cell
is null (in order), the dated frame holds exactly the remaining rows
(each augmented in place with the helper columns, preserving order and
multiplicity), and the twelve month buckets together are a permutation
of the dated frame — every dated row lands in exactly one bucket, none
is duplicated or dropped.  When the input has NO birth-date column,
however, BOTH groups are the empty frame, so every row of such a table
is dropped from the report. -/
theorem partition_rows (df : DF) (hwf : df.WF)
    (hdok : ∀ r ∈ df.rows, ∀ gi, findCol "Geburtsdatum" df.cols = some gi →
      (cellAt r gi = Value.null ∨
        ∃ y m d, cellAt r gi = Value.date y m d ∧ 1 ≤ m ∧ m ≤ 12)) :
    (∀ gi, findCol "Geburtsdatum" df.cols = some gi →
      ((splitGeb df).2.rows = df.rows.filter (fun r => cellAt r gi == Value.null) ∧
       (∃ aug : List Value → List Value,
         (splitGeb df).1.rows =
           (df.rows.filter (fun r => !(cellAt r gi == Value.null))).map aug) ∧
       ((List.range' 1 12).flatMap (fun m => bucketRows (splitGeb df).1 m)).Perm
         (splitGeb df).1.rows)) ∧
    (findCol "Geburtsdatum" df.cols = none →
      (splitGeb df).1 = ⟨[], []⟩ ∧ (splitGeb df).2 = ⟨[], []⟩) := by
  constructor
  · intro gi hgi
    obtain ⟨hn, hw⟩ := splitGeb_some hgi
    refine ⟨by rw [hn], ?_, ?_⟩
    · rw [hw]
      simp only [DF.setColFrom, List.map_map]
      exact ⟨_, rfl⟩
    · obtain ⟨mi, hmi, hcells⟩ := splitGeb_monthCell hwf hgi
      have hbucket : ∀ m : Nat, bucketRows (splitGeb df).1 m =
          (splitGeb df).1.rows.filter
            (fun r => cellAt r mi == Value.int (m : Int)) := by
        intro m
        unfold bucketRows
        rw [hmi]
      have hcov : ∀ r ∈ (splitGeb df).1.rows, ∃ m0, m0 ∈ List.range' 1 12 ∧
          (cellAt r mi == Value.int (m0 : Int)) = true ∧
          ∀ m' ∈ List.range' 1 12,
            (cellAt r mi == Value.int (m' : Int)) = true → m' = m0 := by
        intro r hr
        obtain ⟨r0, hr0, hnn, hmv⟩ := hcells r hr
        rcases hdok r0 hr0 gi hgi with hnull | ⟨y, mx, d, hdate, h1, h2⟩
        · rw [hnull] at hnn
          simp at hnn
        · rw [hdate] at hmv
          have hmv' : cellAt r mi = Value.int (mx : Int) := hmv
          refine ⟨mx, ?_, ?_, ?_⟩
          · have hrange : List.range' 1 12 = [1,2,3,4,5,6,7,8,9,10,11,12] := by
              decide
            rw [hrange]
            simp only [List.mem_cons, List.not_mem_nil, or_false]
            omega
          · simp [hmv']
          · intro m' _ hq
            simp [hmv'] at hq
            omega
      simp only [hbucket]
      exact flatMap_filter_perm
        (fun m r => cellAt r mi == Value.int (m : Int))
        (splitGeb df).1.rows (List.range' 1 12) (by decide) hcov
  · intro hnone
    unfold splitGeb
    rw [hnone]
    exact ⟨rfl, rfl⟩

/-- A one-row table without a `Geburtsdatum` column: the report builder
drops its row entirely — both the dated and the undated group come back
as the empty frame, so the row reaches no month bucket and no undated
sheet. -/
theorem partition_no_column_counterexample :
    (DF.mk ["Vorname"] [[Value.str "Anna"]]).rows ≠ [] ∧
    (splitGeb (DF.mk ["Vorname"] [[Value.str "Anna"]])).1 = ⟨[], []⟩ ∧
    (splitGeb (DF.mk ["Vorname"] [[Value.str "Anna"]])).2 = ⟨[], []⟩ := by
  decide

def exC2 : DF :=
  ⟨["Vorname", "Geburtsdatum"],
   [[Value.str "Anna", Value.date 1990 5 1],
    [Value.str "Bob", Value.null],
    [Value.str "Cara", Value.date 1980 12 24]]⟩

theorem partition_rows_witness :
    ((List.range' 1 12).flatMap (fun m => bucketRows (splitGeb exC2).1 m)).Perm
      (splitGeb exC2).1.rows ∧
    (splitGeb exC2).2.rows =
      exC2.rows.filter (fun r => cellAt r 1 == Value.null) := by
  have h := partition_rows exC2 (by unfold DF.WF; decide)
    (by
      intro r hr gi hgi
      have hgi1 : findCol "Geburtsdatum" exC2.cols = some 1 := by decide
      rw [hgi1] at hgi
      have hgi' : gi = 1 := (Option.some.inj hgi).symm
      subst hgi'
      simp only [exC2, List.mem_cons, List.not_mem_nil, or_false] at hr
      rcases hr with rfl | rfl | rfl
      · exact Or.inr ⟨1990, 5, 1, rfl, by decide, by decide⟩
      · exact Or.inl rfl
      · exact Or.inr ⟨1980, 12, 24, rfl, by decide, by decide⟩)
  exact ⟨(h.1 1 (by decide)).2.2, (h.1 1 (by decide)).1⟩

/-- `buildSheets` literally: month part, undated part, placeholder part. -/
theorem buildSheets_parts (df : DF) (Y : Int) (inc : Bool) :
    buildSheets df Y inc =
      (if (!(isEmptyDF (splitGeb df).1) && (splitGeb df).1.cols.contains "Monat" &&
          (match findCol "Monat" (splitGeb df).1.cols with
           | some mi => (splitGeb df).1.rows.any (fun r => !(cellAt r mi == Value.null))
           | none => false))
        then (List.range' 1 12).filterMap (mkMonthSheet (splitGeb df).1 Y) else []) ++
      (if inc && !(isEmptyDF (splitGeb df).2) then [mkNoDateSheet (splitGeb df).2] else []) ++
      (if isEmptyDF (splitGeb df).1 && (!inc || isEmptyDF (splitGeb df).2)
        then [placeholderSheet] else []) := rfl

theorem monthNames_distinct : ∀ m ∈ List.range' 1 12,
    monatName m ≠ "Keine_Daten" ∧ monatName m ≠ "Ohne_Geburtsdatum" := by
  decide

/-- A nonempty dated frame always produces its month guard and at least
one month sheet. -/
theorem month_guard_of_ne {df : DF} (Y : Int) (hwf : df.WF)
    (hdok : ∀ r ∈ df.rows, ∀ gi, findCol "Geburtsdatum" df.cols = some gi →
      (cellAt r gi = Value.null ∨
        ∃ y m d, cellAt r gi = Value.date y m d ∧ 1 ≤ m ∧ m ≤ 12))
    (hne : isEmptyDF (splitGeb df).1 = false) :
    (!(isEmptyDF (splitGeb df).1) && (splitGeb df).1.cols.contains "Monat" &&
      (match findCol "Monat" (splitGeb df).1.cols with
       | some mi => (splitGeb df).1.rows.any (fun r => !(cellAt r mi == Value.null))
       | none => false)) = true ∧
    ∃ m s, m ∈ List.range' 1 12 ∧ mkMonthSheet (splitGeb df).1 Y m = some s := by
  cases hfc : findCol "Geburtsdatum" df.cols with
  | none =>
    have h0 : (splitGeb df).1 = ⟨[], []⟩ := by
      unfold splitGeb
      rw [hfc]
    rw [h0] at hne
    simp [isEmptyDF] at hne
  | some gi =>
    obtain ⟨mi, hmi, hcells⟩ := splitGeb_monthCell hwf hfc
    have hrowsne : (splitGeb df).1.rows ≠ [] := by
      intro h0
      simp [isEmptyDF, h0] at hne
    obtain ⟨r0, hr0⟩ := List.exists_mem_of_ne_nil _ hrowsne
    obtain ⟨rr, hrr, hnn, hmv⟩ := hcells r0 hr0
    rcases hdok rr hrr gi hfc with hnull | ⟨y, mx, d, hdate, h1, h2⟩
    · rw [hnull] at hnn
      simp at hnn
    · rw [hdate] at hmv
      have hmv' : cellAt r0 mi = Value.int (mx : Int) := hmv
      have hmem : mx ∈ List.range' 1 12 := by
        have hrange : List.range' 1 12 = [1,2,3,4,5,6,7,8,9,10,11,12] := by decide
        rw [hrange]
        simp only [List.mem_cons, List.not_mem_nil, or_false]
        omega
      constructor
      · have hcontains : (splitGeb df).1.cols.contains "Monat" = true := by
          have hm : "Monat" ∈ (splitGeb df).1.cols :=
            findCol_isSome_iff.1 (by rw [hmi]; rfl)
          simpa using hm
        have hany : (splitGeb df).1.rows.any
            (fun r => !(cellAt r mi == Value.null)) = true :=
          List.any_eq_true.2 ⟨r0, hr0, by simp [hmv']⟩
        rw [hne, hmi, hcontains]
        simp only []
        rw [hany]
        rfl
      · have hbne : (bucketRows (splitGeb df).1 mx).isEmpty = false := by
          unfold bucketRows
          rw [hmi]
          simp only []
          have hin : r0 ∈ (splitGeb df).1.rows.filter
              (fun r => cellAt r mi == Value.int (mx : Int)) :=
            List.mem_filter.2 ⟨hr0, by simp [hmv']⟩
          cases hfil : (splitGeb df).1.rows.filter
              (fun r => cellAt r mi == Value.int (mx : Int)) with
          | nil =>
            rw [hfil] at hin
            simp at hin
          | cons a l => rfl
        cases hms : mkMonthSheet (splitGeb df).1 Y mx with
        | none =>
          exfalso
          unfold mkMonthSheet at hms
          rw [hbne] at hms
          rw [if_neg (by simp)] at hms
          exact Option.noConfusion hms
        | some s => exact ⟨mx, s, hmem, hms⟩

theorem splitGeb_rows_nil {df : DF} (h : df.rows = []) :
    (splitGeb df).1.rows = [] ∧ (splitGeb df).2.rows = [] := by
  unfold splitGeb
  cases hfc : findCol "Geburtsdatum" df.cols with
  | none => exact ⟨rfl, rfl⟩
  | some gi =>
    simp only []
    constructor
    · show (((⟨df.cols, df.rows.filter (fun r => !(cellAt r gi == Value.null))⟩ : DF).setColFrom
          "Monat" (fun r => monthVal (cellAt r gi))).setColFrom
          "Tag" (fun r => dayVal (cellAt r gi))).rows = []
      simp only [DF.setColFrom, List.map_map]
      rw [h]
      rfl
    · show df.rows.filter (fun r => cellAt r gi == Value.null) = []
      rw [h]
      rfl

/-- C6 — the degenerate-input fallback of app.py lines 292–296.  Under
valid month data the report never has zero sheets; the placeholder sheet
`Keine_Daten` is in the output exactly when no month sheet was produced
(no sheet carries a month name) and no `Ohne_Geburtsdatum` sheet was
emitted — whether because the option is off or because the undated group
is empty; and with zero input rows and the option on, the output is
exactly the one placeholder sheet. -/
theorem placeholder_sheet (df : DF) (Y : Int) (inc : Bool) (hwf : df.WF)
    (hdok : ∀ r ∈ df.rows, ∀ gi, findCol "Geburtsdatum" df.cols = some gi →
      (cellAt r gi = Value.null ∨
        ∃ y m d, cellAt r gi = Value.date y m d ∧ 1 ≤ m ∧ m ≤ 12)) :
    buildSheets df Y inc ≠ [] ∧
    (placeholderSheet ∈ buildSheets df Y inc ↔
      ((∀ m ∈ List.range' 1 12,
          monatName m ∉ (buildSheets df Y inc).map Sheet.name) ∧
        "Ohne_Geburtsdatum" ∉ (buildSheets df Y inc).map Sheet.name)) ∧
    (df.rows = [] → inc = true → buildSheets df Y inc = [placeholderSheet]) := by
  rw [buildSheets_parts]
  cases he : isEmptyDF (splitGeb df).1 with
  | false =>
    obtain ⟨hg, m0, s0, hm0, hs0⟩ := month_guard_of_ne Y hwf hdok he
    rw [he] at hg
    rw [hg]
    simp only [Bool.false_and, Bool.false_eq_true, if_false, eq_self_iff_true, if_true,
      List.append_nil]
    have hs0mem : s0 ∈ (List.range' 1 12).filterMap (mkMonthSheet (splitGeb df).1 Y) :=
      List.mem_filterMap.2 ⟨m0, hm0, hs0⟩
    have hs0name : s0.name = monatName m0 := (mkMonthSheet_some hs0).1
    have hempty3 : ¬(df.rows = []) := by
      intro h0
      have hr : (splitGeb df).1.rows = [] := (splitGeb_rows_nil h0).1
      simp [isEmptyDF, hr] at he
    cases hu : (inc && !(isEmptyDF (splitGeb df).2)) with
    | true =>
      simp only [eq_self_iff_true, if_true]
      refine ⟨?_, ?_, fun h0 _ => absurd h0 hempty3⟩
      · intro hnil
        rw [List.append_eq_nil] at hnil
        rw [hnil.1] at hs0mem
        simp at hs0mem
      · apply iff_of_false
        · intro hmem
          rcases List.mem_append.1 hmem with hin | hin
          · obtain ⟨m, hm, hsm⟩ := List.mem_filterMap.1 hin
            exact (monthNames_distinct m hm).1 ((mkMonthSheet_some hsm).1).symm
          · have heq : placeholderSheet = mkNoDateSheet (splitGeb df).2 := by
              simpa using hin
            have hpn : placeholderSheet.name = "Ohne_Geburtsdatum" := by
              rw [heq]
              exact (mkNoDateSheet_eq _).1
            exact absurd hpn (by decide)
        · intro hno
          exact hno.1 m0 hm0 (List.mem_map.2
            ⟨s0, List.mem_append_left _ hs0mem, hs0name⟩)
    | false =>
      simp only [Bool.false_eq_true, if_false, List.append_nil]
      refine ⟨?_, ?_, fun h0 _ => absurd h0 hempty3⟩
      · intro hnil
        rw [hnil] at hs0mem
        simp at hs0mem
      · apply iff_of_false
        · intro hmem
          obtain ⟨m, hm, hsm⟩ := List.mem_filterMap.1 hmem
          exact (monthNames_distinct m hm).1 ((mkMonthSheet_some hsm).1).symm
        · intro hno
          exact hno.1 m0 hm0 (List.mem_map.2 ⟨s0, hs0mem, hs0name⟩)
  | true =>
    simp only [Bool.not_true, Bool.false_and, Bool.false_eq_true, if_false,
      List.nil_append]
    cases hu : (inc && !(isEmptyDF (splitGeb df).2)) with
    | true =>
      rw [Bool.and_eq_true] at hu
      obtain ⟨hinc, hnd'⟩ := hu
      have hnd : isEmptyDF (splitGeb df).2 = false := by
        cases hd : isEmptyDF (splitGeb df).2 with
        | false => rfl
        | true =>
          rw [hd] at hnd'
          exact absurd hnd' (by decide)
      rw [hinc, hnd]
      simp only [eq_self_iff_true, if_true, Bool.not_true, Bool.or_false,
        Bool.true_and, Bool.false_eq_true, if_false, List.append_nil]
      refine ⟨by simp, ?_, ?_⟩
      · apply iff_of_false
        · intro hmem
          have heq : placeholderSheet = mkNoDateSheet (splitGeb df).2 := by
            simpa using hmem
          have hpn : placeholderSheet.name = "Ohne_Geburtsdatum" := by
            rw [heq]
            exact (mkNoDateSheet_eq _).1
          exact absurd hpn (by decide)
        · intro hno
          exact hno.2 (List.mem_map.2 ⟨mkNoDateSheet (splitGeb df).2, by simp, rfl⟩)
      · intro h0 _
        have hr : (splitGeb df).2.rows = [] := (splitGeb_rows_nil h0).2
        simp [isEmptyDF, hr] at hnd
    | false =>
      have hg3 : (!inc || isEmptyDF (splitGeb df).2) = true := by
        cases hi : inc with
        | false => rfl
        | true =>
          rw [hi] at hu
          cases hd : isEmptyDF (splitGeb df).2 with
          | false =>
            rw [hd] at hu
            exact absurd hu (by decide)
          | true => decide
      rw [hg3]
      simp only [Bool.false_eq_true, if_false, Bool.true_and, eq_self_iff_true,
        if_true, List.nil_append]
      refine ⟨by simp, ?_, fun _ _ => trivial⟩
      apply iff_of_true
      · simp
      · constructor
        · intro m hm hmem
          have hmk : monatName m = placeholderSheet.name := by simpa using hmem
          exact (monthNames_distinct m hm).1 hmk
        · intro hmem
          have hok : "Ohne_Geburtsdatum" = placeholderSheet.name := by
            simpa using hmem
          exact absurd hok (by decide)

def exC6 : DF := ⟨["Vorname", "Geburtsdatum"], []⟩

theorem placeholder_sheet_witness :
    buildSheets exC6 2026 true = [placeholderSheet] :=
  (placeholder_sheet exC6 2026 true (by unfold DF.WF; decide)
    (by intro r hr; simp [exC6] at hr)).2.2 rfl rfl
